import Mathlib

/-!
# copier: tag-driven struct copying through reflection

A shallow embedding of `copier.go` (package `copier`) over a model of the part
of Go's `reflect` package that the program uses.  Types live in a table of
declarations, values in a store of objects addressed by a base and a path,
and every function of the source is a function on an explicit state.
-/

namespace Copier

/-! ## Types -/

/-- Kinds of Go types as `reflect.Kind` reports them.  Floating-point, complex,
array, channel and unsafe-pointer kinds are outside the modelled fragment. -/
inductive Kind
  | Invalid | Bool | Int | Int8 | Int16 | Int32 | Int64
  | Uint | Uint8 | Uint16 | Uint32 | Uint64
  | String | Func | Interface | Map | Ptr | Slice | Struct
  deriving DecidableEq, Repr

/-- Predeclared scalar types. -/
inductive Basic
  | bool | int | int8 | int16 | int32 | int64
  | uint | uint8 | uint16 | uint32 | uint64 | string
  deriving DecidableEq, Repr

/-- Go types.  A `named` type refers to entry `id` of the program's table of
type declarations, which is how recursive types such as
`type Node struct { Next *Node }` or `type P *P` are expressed. -/
inductive GoType
  | basic (b : Basic)
  | named (id : Nat)
  | ptr (elem : GoType)
  | slice (elem : GoType)
  deriving DecidableEq, Repr

/-- A struct field as `reflect.StructField` describes it.  `Tag` holds the value
of the field's `json` key, the only key the program reads (so `Tag` is what
`field.Tag.Get("json")` returns); `PkgPath` is empty exactly for exported
fields. -/
structure StructField where
  Name : String
  Tag : String
  Anonymous : Bool
  PkgPath : String
  Typ : GoType
  deriving DecidableEq, Repr

/-- An exported method of a method set: its name and its func type (without
receiver). -/
structure Method where
  Name : String
  Typ : GoType
  deriving DecidableEq, Repr

/-- The underlying type of a declared type. -/
inductive Underlying
  | basic (b : Basic)
  | ptr (elem : GoType)
  | slice (elem : GoType)
  | struct (fields : List StructField)
  | func (ins outs : List GoType)
  | map (key elem : GoType)
  | iface (methods : List Method)
  deriving DecidableEq, Repr

/-- One entry of the type table.  `Name` is empty for a type literal (an
unnamed type); `methods` is the exported method set of the type itself and
`ptrMethods` the exported method set of a pointer to it, both sorted by name as
`reflect` presents them. -/
structure TypeDecl where
  Name : String
  underlying : Underlying
  methods : List Method
  ptrMethods : List Method
  deriving DecidableEq, Repr

/-! ## Values and the store -/

/-- A location: an object of the store and a path of field (or element)
indices into it. -/
structure Loc where
  base : Nat
  path : List Nat
  deriving DecidableEq, Repr

/-- Go values.  Integers of every kind are `int` (kept in range by the
conversions); `nil` is the nil pointer, slice, map, func or interface; a slice
is its backing array object and its length; `struct` also serves for backing
arrays; `iface` is a non-nil interface value with its dynamic type. -/
inductive GoVal
  | bool (b : Bool)
  | int (n : Int)
  | str (s : String)
  | nil
  | ptr (l : Loc)
  | slice (arr : Nat) (len : Nat)
  | struct (fields : List GoVal)
  | iface (t : GoType) (v : GoVal)
  deriving Repr

/-- The store: a list of objects; an address is an index into it. -/
abbrev Heap := List GoVal

/-- Read the component of `v` at `path`. -/
def GoVal.readPath : GoVal → List Nat → Option GoVal
  | v, [] => some v
  | .struct fs, i :: rest =>
    match fs[i]? with
    | some f => f.readPath rest
    | none => none
  | _, _ :: _ => none

/-- Replace the component of `v` at `path` by `x`. -/
def GoVal.writePath : GoVal → List Nat → GoVal → Option GoVal
  | _, [], x => some x
  | .struct fs, i :: rest, x =>
    match fs[i]? with
    | some f =>
      match f.writePath rest x with
      | some f' => some (.struct (fs.set i f'))
      | none => none
    | none => none
  | _, _ :: _, _ => none

/-- Read the store at a location. -/
def Heap.read (h : Heap) (l : Loc) : Option GoVal :=
  match h[l.base]? with
  | some o => o.readPath l.path
  | none => none

/-- Write the store at a location. -/
def Heap.write (h : Heap) (l : Loc) (x : GoVal) : Option Heap :=
  match h[l.base]? with
  | some o =>
    match o.writePath l.path x with
    | some o' => some (h.set l.base o')
    | none => none
  | none => none

/-! ## Program state and outcomes -/

/-- The state a call runs in: the store, the two package-level variables
`jsonTagTo` and `jsonTagFrom`, and a ghost log recording, in order, the result
of every call of `set` that returned (the log is not part of the Go state). -/
structure State where
  heap : Heap
  jsonTagTo : String
  jsonTagFrom : String
  setLog : List Bool

/-- Ways a run can fail to return: a Go panic, a run that left the modelled
fragment (an ill-typed store, or behaviour of `reflect` that is not modelled),
and a run that exhausted its fuel. -/
inductive Fault
  | panic (msg : String)
  | stuck
  | timeout
  deriving DecidableEq, Repr

/-- Result of an operation that does not touch the state. -/
abbrev Res (α : Type) := Except Fault α

/-- Result of a run: a returned value and the final state, or a fault and the
state it occurred in. -/
inductive Outcome (α : Type)
  | ok (a : α) (s : State)
  | fail (f : Fault) (s : State)

/-- A computation on the state. -/
def Exec (α : Type) := State → Outcome α

/-- Sequencing of computations. -/
def Exec.bind {α β : Type} (m : Exec α) (f : α → Exec β) : Exec β :=
  fun s =>
    match m s with
    | .ok a s' => f a s'
    | .fail e s' => .fail e s'

/-- The computation that returns `a`. -/
def Exec.pure {α : Type} (a : α) : Exec α := fun s => .ok a s

instance : Monad Exec where
  pure := Exec.pure
  bind := Exec.bind

/-- Run a state-independent operation. -/
def liftR {α : Type} (r : Res α) : Exec α :=
  fun s =>
    match r with
    | .ok a => .ok a s
    | .error e => .fail e s

/-- Run an operation that only reads the store. -/
def readHeap {α : Type} (f : Heap → Res α) : Exec α :=
  fun s => liftR (f s.heap) s

/-- A Go panic. -/
def throwPanic {α : Type} (msg : String) : Res α := .error (.panic msg)

/-! ## reflect.Value -/

/-- Where a `reflect.Value` keeps its data: an immediate copy, or a location of
the store (the value is then addressable, `flagAddr`). -/
inductive Data
  | imm (v : GoVal)
  | addr (l : Loc)
  deriving Repr

/-- A `reflect.Value`: the zero Value, or a type, the data, the two read-only
flags (`flagStickyRO`, `flagEmbedRO`) and, for a method value (`flagMethod`),
the index of the method in the method set of `typ`. -/
inductive Value
  | zero
  | mk (typ : GoType) (data : Data) (stickyRO embedRO : Bool) (method : Option Nat)
  deriving Repr

/-- An interface value as passed to `Copy`: `none` is the nil interface,
`some (t, v)` holds the dynamic type and value. -/
abbrev Iface := Option (GoType × GoVal)

/-- The program under which `Copy` runs: its type declarations, the behaviour
of its methods when called through `reflect.Value.Call` (receiver type, method
index, receiver, arguments) and of `Scan` on a pointer to a value of the given
type at the given location.  Methods are user code, not part of the package. -/
structure Program where
  types : Nat → TypeDecl
  call : GoType → Nat → Data → List Value → Exec (List Value)
  scan : GoType → Loc → Iface → Exec Bool

/-! ## reflect.Type -/

/-- Kind of a predeclared scalar type. -/
def Basic.kind : Basic → Kind
  | .bool => .Bool | .int => .Int | .int8 => .Int8 | .int16 => .Int16
  | .int32 => .Int32 | .int64 => .Int64 | .uint => .Uint | .uint8 => .Uint8
  | .uint16 => .Uint16 | .uint32 => .Uint32 | .uint64 => .Uint64
  | .string => .String

/-- Kind of an underlying type. -/
def Underlying.kind : Underlying → Kind
  | .basic b => b.kind
  | .ptr _ => .Ptr
  | .slice _ => .Slice
  | .struct _ => .Struct
  | .func _ _ => .Func
  | .map _ _ => .Map
  | .iface _ => .Interface

/-- Underlying type of a type. -/
def GoType.underlying (p : Program) : GoType → Underlying
  | .basic b => .basic b
  | .named n => (p.types n).underlying
  | .ptr e => .ptr e
  | .slice e => .slice e

/-- Go's `Type.Kind()`. -/
def GoType.Kind (p : Program) (t : GoType) : Kind := (t.underlying p).kind

/-- Go's `Type.Field(i)`: panics on a non-struct type and on an index out of
range. -/
def GoType.Field (p : Program) (t : GoType) (i : Nat) : Res StructField :=
  match t.underlying p with
  | .struct fs =>
    match fs[i]? with
    | some f => .ok f
    | none => throwPanic "reflect: Field index out of bounds"
  | _ => throwPanic "reflect: Field of non-struct type"

/-- Go's `Type.NumField()`. -/
def GoType.NumField (p : Program) (t : GoType) : Res Nat :=
  match t.underlying p with
  | .struct fs => .ok fs.length
  | _ => throwPanic "reflect: NumField of non-struct type"

/-- Go's `Type.Elem()`. -/
def GoType.Elem (p : Program) (t : GoType) : Res GoType :=
  match t.underlying p with
  | .ptr e => .ok e
  | .slice e => .ok e
  | .map _ e => .ok e
  | _ => throwPanic "reflect: Elem of invalid type"

/-- The exported method set of a type. -/
def GoType.methodSet (p : Program) : GoType → List Method
  | .named n => (p.types n).methods
  | .ptr (.named n) => (p.types n).ptrMethods
  | _ => []

/-- Go's `Type.NumMethod()`. -/
def GoType.NumMethod (p : Program) (t : GoType) : Nat := (t.methodSet p).length

/-- Go's `Type.NumIn()`. -/
def GoType.NumIn (p : Program) (t : GoType) : Res Nat :=
  match t.underlying p with
  | .func ins _ => .ok ins.length
  | _ => throwPanic "reflect: NumIn of non-func type"

/-- Go's `Type.NumOut()`. -/
def GoType.NumOut (p : Program) (t : GoType) : Res Nat :=
  match t.underlying p with
  | .func _ outs => .ok outs.length
  | _ => throwPanic "reflect: NumOut of non-func type"

/-- Go's `Type.In(i)`. -/
def GoType.In (p : Program) (t : GoType) (i : Nat) : Res GoType :=
  match t.underlying p with
  | .func ins _ =>
    match ins[i]? with
    | some a => .ok a
    | none => throwPanic "reflect: Func index out of bounds"
  | _ => throwPanic "reflect: In of non-func type"

/-- Whether a type has a name (predeclared and defined types do, type literals
do not). -/
def GoType.hasName (p : Program) : GoType → Bool
  | .basic _ => true
  | .named n => (p.types n).Name != ""
  | _ => false

/-! ## Operations of reflect.Value that do not write -/

/-- Go's `reflect.ValueOf`. -/
def ValueOf : Iface → Value
  | none => .zero
  | some (t, v) => .mk t (.imm v) false false none

/-- Go's `Value.IsValid()`. -/
def Value.IsValid : Value → Bool
  | .zero => false
  | .mk _ _ _ _ _ => true

/-- Go's `Value.Kind()`. -/
def Value.Kind (p : Program) : Value → Kind
  | .zero => .Invalid
  | .mk _ _ _ _ (some _) => .Func
  | .mk t _ _ _ none => t.Kind p

/-- Go's `Value.CanAddr()`. -/
def Value.CanAddr : Value → Bool
  | .mk _ (.addr _) _ _ none => true
  | _ => false

/-- Whether one of the read-only flags is set (`flagRO`). -/
def Value.isRO : Value → Bool
  | .zero => false
  | .mk _ _ s e _ => s || e

/-- Go's `Value.CanSet()`. -/
def Value.CanSet (v : Value) : Bool := v.CanAddr && !v.isRO

/-- Go's `Value.Type()`: panics on the zero Value; the type of a method value
is the method's func type (a method set whose entry is not of kind `Func` is
not a Go method set). -/
def Value.Typ (p : Program) : Value → Res GoType
  | .zero => throwPanic "reflect: call of reflect.Value.Type on zero Value"
  | .mk t _ _ _ none => .ok t
  | .mk t _ _ _ (some i) =>
    match (t.methodSet p)[i]? with
    | some m => if m.Typ.Kind p == .Func then .ok m.Typ else .error .stuck
    | none => .error .stuck

/-- The Go value a (non-method) Value currently holds. -/
def Value.load (h : Heap) : Value → Res GoVal
  | .mk _ (.imm v) _ _ none => .ok v
  | .mk _ (.addr l) _ _ none =>
    match h.read l with
    | some v => .ok v
    | none => .error .stuck
  | _ => .error .stuck

/-- Go's `Value.Elem()`: the pointee of a pointer (addressable, read-only flags
kept), the content of an interface, the zero Value for nil. -/
def Value.Elem (p : Program) (h : Heap) (v : Value) : Res Value :=
  match v with
  | .zero => throwPanic "reflect: call of reflect.Value.Elem on zero Value"
  | .mk t _ s e _ =>
    match v.Kind p with
    | .Ptr =>
      match v.load h with
      | .ok .nil => .ok .zero
      | .ok (.ptr l) =>
        match t.Elem p with
        | .ok et => .ok (.mk et (.addr l) s e none)
        | .error f => .error f
      | .ok _ => .error .stuck
      | .error f => .error f
    | .Interface =>
      match v.load h with
      | .ok .nil => .ok .zero
      | .ok (.iface dt dv) => .ok (.mk dt (.imm dv) s e none)
      | .ok _ => .error .stuck
      | .error f => .error f
    | _ => throwPanic "reflect: call of reflect.Value.Elem on non-pointer Value"

/-- Go's `Value.Field(i)`: panics unless the Value is a struct with more than
`i` fields; the field of an addressable struct is addressable, an unexported
field is read-only. -/
def Value.Field (p : Program) (v : Value) (i : Nat) : Res Value :=
  match v with
  | .mk t d s _ none =>
    match t.underlying p with
    | .struct fs =>
      match fs[i]? with
      | none => throwPanic "reflect: Field index out of range"
      | some f =>
        let ro := f.PkgPath != ""
        let s' := s || (ro && !f.Anonymous)
        let e' := ro && f.Anonymous
        match d with
        | .addr l => .ok (.mk f.Typ (.addr ⟨l.base, l.path ++ [i]⟩) s' e' none)
        | .imm (.struct vs) =>
          match vs[i]? with
          | some x => .ok (.mk f.Typ (.imm x) s' e' none)
          | none => .error .stuck
        | .imm _ => .error .stuck
    | _ => throwPanic "reflect: call of reflect.Value.Field on non-struct Value"
  | _ => throwPanic "reflect: call of reflect.Value.Field on non-struct Value"

/-- Go's `Value.Len()` (slices; strings by their UTF-8 length). -/
def Value.Len (p : Program) (h : Heap) (v : Value) : Res Nat :=
  match v.Kind p with
  | .Slice =>
    match v.load h with
    | .ok .nil => .ok 0
    | .ok (.slice _ n) => .ok n
    | .ok _ => .error .stuck
    | .error f => .error f
  | .String =>
    match v.load h with
    | .ok (.str s) => .ok s.utf8ByteSize
    | .ok _ => .error .stuck
    | .error f => .error f
  | .Map => .error .stuck
  | _ => throwPanic "reflect: call of reflect.Value.Len on non-collection Value"

/-- Go's `Value.Index(i)` on a slice: the addressable `i`-th element. -/
def Value.Index (p : Program) (h : Heap) (v : Value) (i : Nat) : Res Value :=
  match v with
  | .mk t _ s e none =>
    match t.underlying p with
    | .slice et =>
      match v.load h with
      | .ok .nil => throwPanic "reflect: slice index out of range"
      | .ok (.slice arr n) =>
        if i < n then .ok (.mk et (.addr ⟨arr, [i]⟩) s e none)
        else throwPanic "reflect: slice index out of range"
      | .ok _ => .error .stuck
      | .error f => .error f
    | .basic .string => .error .stuck
    | _ => throwPanic "reflect: call of reflect.Value.Index on non-indexable Value"
  | _ => throwPanic "reflect: call of reflect.Value.Index on non-indexable Value"

/-- Go's `Value.IsNil()`. -/
def Value.IsNil (p : Program) (h : Heap) (v : Value) : Res Bool :=
  match v with
  | .mk _ _ _ _ (some _) => .ok false
  | .mk t _ _ _ none =>
    match t.Kind p with
    | .Func | .Interface | .Map | .Ptr | .Slice =>
      match v.load h with
      | .ok .nil => .ok true
      | .ok _ => .ok false
      | .error f => .error f
    | _ => throwPanic "reflect: call of reflect.Value.IsNil on non-nilable Value"
  | .zero => throwPanic "reflect: call of reflect.Value.IsNil on zero Value"

/-- Go's `Value.Addr()`: a pointer to an addressable Value. -/
def Value.Addr : Value → Res Value
  | .mk t (.addr l) s e none => .ok (.mk (.ptr t) (.imm (.ptr l)) s e none)
  | _ => throwPanic "reflect.Value.Addr of unaddressable value"

/-- Go's `Value.Interface()`: panics on the zero Value and on a read-only
Value; for a Value of interface kind it is the interface value itself. -/
def Value.Interface (p : Program) (h : Heap) (v : Value) : Res Iface :=
  match v with
  | .zero => throwPanic "reflect: call of reflect.Value.Interface on zero Value"
  | .mk _ _ _ _ (some _) => .error .stuck
  | .mk t _ s e none =>
    if s || e then
      throwPanic "reflect.Value.Interface: cannot return value obtained from unexported field or method"
    else
      match v.load h with
      | .error f => .error f
      | .ok x =>
        match t.Kind p with
        | .Interface =>
          match x with
          | .nil => .ok none
          | .iface dt dv => .ok (some (dt, dv))
          | _ => .error .stuck
        | _ => .ok (some (t, x))

/-- Go's `Value.Method(i)`: the `i`-th method of the Value's type, bound to the
Value as receiver. -/
def Value.Method (p : Program) (h : Heap) (v : Value) (i : Nat) : Res Value :=
  match v with
  | .zero => throwPanic "reflect: call of reflect.Value.Method on zero Value"
  | .mk _ _ _ _ (some _) => throwPanic "reflect: Method index out of range"
  | .mk t d s e none =>
    if t.NumMethod p ≤ i then throwPanic "reflect: Method index out of range"
    else
      match t.Kind p with
      | .Interface =>
        match v.load h with
        | .ok .nil => throwPanic "reflect: Method on nil interface value"
        | .ok _ => .ok (.mk t d s e (some i))
        | .error f => .error f
      | _ => .ok (.mk t d s e (some i))

/-- Go's `Value.MethodByName(name)`: the zero Value when the type has no
exported method of that name. -/
def Value.MethodByName (p : Program) (h : Heap) (v : Value) (name : String) : Res Value :=
  match v with
  | .zero => throwPanic "reflect: call of reflect.Value.MethodByName on zero Value"
  | .mk _ _ _ _ (some _) => .ok .zero
  | .mk t _ _ _ none =>
    match (t.methodSet p).findIdx? (fun m => m.Name == name) with
    | some i => v.Method p h i
    | none => .ok .zero

/-! ## Assignability and conversion -/

/-- Go's `haveIdenticalUnderlyingType` of package `reflect`.  Identity of
component types is equality of their descriptors (`T == V`); a struct tag is
compared through its `json` value. -/
def haveIdenticalUnderlyingType (p : Program) (T V : GoType) (cmpTags : Bool) : Bool :=
  T == V ||
  (T.Kind p == V.Kind p &&
    match T.underlying p, V.underlying p with
    | .basic _, .basic _ => true
    | .func i o, .func i' o' => i == i' && o == o'
    | .iface m, .iface m' => m.isEmpty && m'.isEmpty
    | .map k e, .map k' e' => k == k' && e == e'
    | .ptr e, .ptr e' => e == e'
    | .slice e, .slice e' => e == e'
    | .struct fs, .struct gs =>
      fs.length == gs.length &&
      (fs.zip gs).all (fun fg =>
        fg.1.Name == fg.2.Name && fg.1.Typ == fg.2.Typ &&
        (!cmpTags || fg.1.Tag == fg.2.Tag) &&
        fg.1.Anonymous == fg.2.Anonymous && fg.1.PkgPath == fg.2.PkgPath)
    | _, _ => false)

/-- Go's `directlyAssignable(T, V)`: a value of type `V` can be stored in a
variable of type `T` as it is. -/
def directlyAssignable (p : Program) (T V : GoType) : Bool :=
  T == V ||
  (!(T.hasName p && V.hasName p) && T.Kind p == V.Kind p &&
    haveIdenticalUnderlyingType p T V true)

/-- Go's `implements(T, V)`: `T` is an interface type and `V` has its
methods. -/
def implements (p : Program) (T V : GoType) : Bool :=
  match T.underlying p with
  | .iface ms =>
    match V.underlying p with
    | .iface vs => ms.all (fun m => vs.contains m)
    | _ => ms.all (fun m => (V.methodSet p).contains m)
  | _ => false

/-- Go's `V.AssignableTo(T)`. -/
def GoType.AssignableTo (p : Program) (V T : GoType) : Bool :=
  directlyAssignable p T V || implements p T V

/-- Signedness and width of the integer kinds (`int` and `uint` are 64 bits
wide). -/
def intBits : Kind → Option (Bool × Nat)
  | .Int => some (true, 64) | .Int8 => some (true, 8) | .Int16 => some (true, 16)
  | .Int32 => some (true, 32) | .Int64 => some (true, 64)
  | .Uint => some (false, 64) | .Uint8 => some (false, 8) | .Uint16 => some (false, 16)
  | .Uint32 => some (false, 32) | .Uint64 => some (false, 64)
  | _ => none

/-- Whether a kind is an integer kind. -/
def isIntKind (k : Kind) : Bool := (intBits k).isSome

/-- The integer `n` as stored in an integer type of the given signedness and
width: reduced modulo `2^w` into the range of the type. -/
def wrapInt (signed : Bool) (w : Nat) (n : Int) : Int :=
  if signed then (n + 2 ^ (w - 1)) % 2 ^ w - 2 ^ (w - 1) else n % 2 ^ w

/-- Go's `string(rune(x))` as `reflect` converts an integer to a string. -/
def runeString (x : Int) : String :=
  if 0 ≤ x ∧ x.toNat.isValidChar then String.singleton (Char.ofNat x.toNat)
  else String.singleton (Char.ofNat 0xFFFD)

/-- Whether a slice type is a byte or rune slice that converts to and from
strings (these conversions are not modelled). -/
def isByteOrRuneSlice (p : Program) (t : GoType) : Bool :=
  match t.underlying p with
  | .slice e => !(e.hasName p && e != .basic .uint8 && e != .basic .int32) &&
      (e.Kind p == .Uint8 || e.Kind p == .Int32)
  | _ => false

/-- Go's `V.ConvertibleTo(T)` (whether `convertOp(T, V)` finds a conversion):
between integer kinds, from an integer to a string, between types with
identical underlying types (tags ignored), between unnamed pointers to such
types, and to an interface the type implements.  Conversions between strings
and byte or rune slices leave the modelled fragment. -/
def GoType.ConvertibleTo (p : Program) (V T : GoType) : Res Bool :=
  if isIntKind (V.Kind p) && (isIntKind (T.Kind p) || T.Kind p == .String) then .ok true
  else if (V.Kind p == .String && isByteOrRuneSlice p T) ||
      (isByteOrRuneSlice p V && T.Kind p == .String) then .error .stuck
  else if haveIdenticalUnderlyingType p T V false then .ok true
  else
    match T, V with
    | .ptr te, .ptr ve =>
      if haveIdenticalUnderlyingType p te ve false then .ok true else .ok (implements p T V)
    | _, _ => .ok (implements p T V)

/-- Go's `Value.Convert(T)`: panics when the type is not convertible; the
result is never addressable and keeps the read-only flags. -/
def Value.Convert (p : Program) (h : Heap) (v : Value) (T : GoType) : Res Value :=
  match v with
  | .mk vt _ s e none =>
    match vt.ConvertibleTo p T with
    | .error f => .error f
    | .ok false => throwPanic "reflect.Value.Convert: value cannot be converted"
    | .ok true =>
      match v.load h with
      | .error f => .error f
      | .ok x =>
        if isIntKind (vt.Kind p) && isIntKind (T.Kind p) then
          match x, intBits (T.Kind p) with
          | .int n, some (sg, w) => .ok (.mk T (.imm (.int (wrapInt sg w n))) s e none)
          | _, _ => .error .stuck
        else if isIntKind (vt.Kind p) && T.Kind p == .String then
          match x with
          | .int n => .ok (.mk T (.imm (.str (runeString n))) s e none)
          | _ => .error .stuck
        else if T.Kind p == .Interface && vt.Kind p != .Interface then
          .ok (.mk T (.imm (.iface vt x)) s e none)
        else .ok (.mk T (.imm x) s e none)
  | .zero => throwPanic "reflect: call of reflect.Value.Convert on zero Value"
  | _ => .error .stuck

/-- The zero value of a type. -/
def zeroVal : Nat → Program → GoType → Res GoVal
  | 0, _, _ => .error .timeout
  | fuel + 1, p, t =>
    match t.underlying p with
    | .basic .bool => .ok (.bool false)
    | .basic .string => .ok (.str "")
    | .basic _ => .ok (.int 0)
    | .struct fs =>
      match fs.mapM (fun f => zeroVal fuel p f.Typ) with
      | .ok vs => .ok (.struct vs)
      | .error f => .error f
    | _ => .ok .nil

/-- Go's `reflect.Zero(t)`. -/
def Zero (fuel : Nat) (p : Program) (t : GoType) : Res Value :=
  match zeroVal fuel p t with
  | .ok z => .ok (.mk t (.imm z) false false none)
  | .error f => .error f

/-! ## Operations of reflect that write, allocate or call -/

/-- Go's `Value.assignTo`: the value of `x` as it is stored in a variable of
type `dst`; panics when the type of `x` is not assignable to `dst`. -/
def assignTo (p : Program) (h : Heap) (x : Value) (dst : GoType) : Res GoVal :=
  match x with
  | .zero => throwPanic "reflect: call of reflect.Value.Set on zero Value"
  | .mk xt _ s e m =>
    if s || e then
      throwPanic "reflect: reflect.Value.Set using value obtained using unexported field"
    else
      match m with
      | some _ => .error .stuck
      | none =>
        if directlyAssignable p dst xt then x.load h
        else if implements p dst xt then
          match x.load h with
          | .error f => .error f
          | .ok v => if xt.Kind p == .Interface then .ok v else .ok (.iface xt v)
        else throwPanic "reflect.Set: value is not assignable to type"

/-- Go's `to.Set(x)`: panics unless `to` is settable and `x` is assignable to
its type; writes the value of `x` at the location of `to`. -/
def Value.Set (p : Program) (to_ x : Value) : Exec Unit :=
  fun st =>
    match to_ with
    | .mk tt (.addr l) false false none =>
      match assignTo p st.heap x tt with
      | .error f => .fail f st
      | .ok v =>
        match st.heap.write l v with
        | some h' => .ok () { st with heap := h' }
        | none => .fail .stuck st
    | _ => .fail (.panic "reflect: reflect.Value.Set using unaddressable or read-only value") st

/-- Go's `reflect.New(t)`: a pointer to a fresh zero value of type `t`. -/
def New (fuel : Nat) (p : Program) (t : GoType) : Exec Value :=
  fun st =>
    match zeroVal fuel p t with
    | .error f => .fail f st
    | .ok z =>
      .ok (.mk (.ptr t) (.imm (.ptr ⟨st.heap.length, []⟩)) false false none)
        { st with heap := st.heap ++ [z] }

/-- Go's `reflect.Append(s, x)`: the slice `s` extended by `x`, in its backing
array when the capacity allows and in a fresh one otherwise (a fresh array is
modelled without spare capacity). -/
def Append (p : Program) (s x : Value) : Exec Value :=
  fun st =>
    match s with
    | .mk t _ false false none =>
      match t.underlying p with
      | .slice et =>
        match s.load st.heap, assignTo p st.heap x et with
        | .error f, _ => .fail f st
        | .ok _, .error f => .fail f st
        | .ok .nil, .ok v =>
          .ok (.mk t (.imm (.slice st.heap.length 1)) false false none)
            { st with heap := st.heap ++ [.struct [v]] }
        | .ok (.slice arr n), .ok v =>
          match st.heap[arr]? with
          | some (.struct es) =>
            if n < es.length then
              .ok (.mk t (.imm (.slice arr (n + 1))) false false none)
                { st with heap := st.heap.set arr (.struct (es.set n v)) }
            else
              .ok (.mk t (.imm (.slice st.heap.length (n + 1))) false false none)
                { st with heap := st.heap ++ [.struct (es.take n ++ [v])] }
          | _ => .fail .stuck st
        | .ok _, .ok _ => .fail .stuck st
      | _ => .fail (.panic "reflect: call of reflect.Append on non-slice Value") st
    | _ => .fail (.panic "reflect: call of reflect.Append on unusable Value") st

/-- Go's `f.Call(args)` for a method value `f`: panics unless `f` is a func
taking `args.length` arguments, each argument valid and assignable to its
parameter; then runs the program's method. -/
def Value.Call (p : Program) (f : Value) (args : List Value) : Exec (List Value) :=
  fun st =>
    match f with
    | .mk t d s e (some i) =>
      if s || e then .fail (.panic "reflect: Call using value obtained using unexported field") st
      else
        match f.Typ p with
        | .error g => .fail g st
        | .ok ft =>
          match ft.underlying p with
          | .func ins _ =>
            if ins.length != args.length then
              .fail (.panic "reflect: Call with wrong number of input arguments") st
            else if (args.zip ins).all (fun ai =>
                match ai.1.Typ p with
                | .ok at_ => at_.AssignableTo p ai.2 && !ai.1.isRO
                | .error _ => false) then
              p.call t i d args st
            else .fail (.panic "reflect: Call using argument of wrong type") st
          | _ => .fail .stuck st
    | .zero => .fail (.panic "reflect: call of reflect.Value.Call on zero Value") st
    | .mk t _ _ _ none =>
      if t.Kind p == .Func then .fail .stuck st
      else .fail (.panic "reflect: call of reflect.Value.Call on non-func Value") st

/-- The type assertion `to.Addr().Interface().(sql.Scanner)` of `set`: whether
a pointer to a value of type `t` has the method `Scan(any) error`. -/
def implementsScanner (p : Program) (t : GoType) : Bool :=
  ((GoType.ptr t).methodSet p).any (fun m =>
    m.Name == "Scan" &&
    match m.Typ.underlying p with
    | .func [a] [r] =>
      (match a.underlying p with
       | .iface ms => ms.isEmpty
       | _ => false) &&
      (match r with
       | .named n => (p.types n).Name == "error"
       | _ => false)
    | _ => false)

/-! ## The package: helpers -/

/-- Read the state. -/
def getState : Exec State := fun s => .ok s s

/-- Assign the package-level variable `jsonTagTo`. -/
def setJsonTagTo (t : String) : Exec Unit := fun s => .ok () { s with jsonTagTo := t }

/-- Assign the package-level variable `jsonTagFrom`. -/
def setJsonTagFrom (t : String) : Exec Unit := fun s => .ok () { s with jsonTagFrom := t }

/-- The function `indirect` of the source: follow pointers while the Value has
kind `Ptr`. -/
def indirect : Nat → Program → Heap → Value → Res Value
  | 0, _, _, _ => .error .timeout
  | fuel + 1, p, h, reflectValue =>
    if reflectValue.Kind p == .Ptr then
      match reflectValue.Elem p h with
      | .ok v => indirect fuel p h v
      | .error f => .error f
    else .ok reflectValue

/-- The function `indirectType` of the source: strip pointer and slice layers
from a type. -/
def indirectType : Nat → Program → GoType → Res GoType
  | 0, _, _ => .error .timeout
  | fuel + 1, p, reflectType =>
    if reflectType.Kind p == .Ptr || reflectType.Kind p == .Slice then
      match reflectType.Elem p with
      | .ok e => indirectType fuel p e
      | .error f => .error f
    else .ok reflectType

/-- The loop of `deepFields`, `for i := 0; i < reflectType.NumField(); i++`,
with `todo` iterations left; `deep` is the recursive call. -/
def deepFieldsLoop (p : Program) (deep : GoType → Res (List StructField))
    (reflectType : GoType) : Nat → Nat → List StructField → Res (List StructField)
  | 0, _, fields => .ok fields
  | todo + 1, i, fields =>
    match reflectType.Field p i with
    | .error f => .error f
    | .ok v =>
      if v.Anonymous then
        match deep v.Typ with
        | .ok fs => deepFieldsLoop p deep reflectType todo (i + 1) (fields ++ fs)
        | .error f => .error f
      else deepFieldsLoop p deep reflectType todo (i + 1) (fields ++ [v])

/-- The function `deepFields` of the source: the fields of a struct type, an
embedded field replaced by the deep fields of its type. -/
def deepFields : Nat → Program → GoType → Res (List StructField)
  | 0, _, _ => .error .timeout
  | fuel + 1, p, reflectType =>
    match indirectType (fuel + 1) p reflectType with
    | .error f => .error f
    | .ok reflectType =>
      if reflectType.Kind p == .Struct then
        match reflectType.NumField p with
        | .ok n => deepFieldsLoop p (deepFields fuel p) reflectType n 0 []
        | .error f => .error f
      else .ok []

/-- The loop of `fieldByJSONTag`, with `todo` iterations left: the tag compared
with `jsonTag` is the one of the first field of the type of field `i`
(`field.Type().Field(0).Tag.Get("json")`). -/
def fieldByJSONTagLoop (p : Program) (source : Value) (jsonTag : String) :
    Nat → Nat → Value → Res Value
  | 0, _, field => .ok field
  | todo + 1, i, _ =>
    match source.Field p i with
    | .error f => .error f
    | .ok field =>
      match field.Typ p with
      | .error f => .error f
      | .ok ft =>
        match ft.Field p 0 with
        | .error f => .error f
        | .ok sf =>
          if sf.Tag == jsonTag then .ok field
          else fieldByJSONTagLoop p source jsonTag todo (i + 1) field

/-- The function `fieldByJSONTag` of the source. -/
def fieldByJSONTag (fuel : Nat) (p : Program) (source : Value) (jsonTag : String) :
    Res Value := do
  let field := Value.zero
  let sourceType ← source.Typ p
  let reflectType ← indirectType fuel p sourceType
  if reflectType.Kind p != .Struct then pure field
  else do
    let n ← reflectType.NumField p
    fieldByJSONTagLoop p source jsonTag n 0 field

/-- The loop of `methodByJSONTag`, with `todo` iterations left. -/
def methodByJSONTagLoop (p : Program) (h : Heap) (source : Value) (jsonTag : String) :
    Nat → Nat → Value → Res Value
  | 0, _, method => .ok method
  | todo + 1, i, _ =>
    match source.Method p h i with
    | .error f => .error f
    | .ok method =>
      match method.Typ p with
      | .error f => .error f
      | .ok mt =>
        match mt.Field p 0 with
        | .error f => .error f
        | .ok sf =>
          if sf.Tag == jsonTag then .ok method
          else methodByJSONTagLoop p h source jsonTag todo (i + 1) method

/-- The function `methodByJSONTag` of the source. -/
def methodByJSONTag (fuel : Nat) (p : Program) (h : Heap) (source : Value)
    (jsonTag : String) : Res Value := do
  let method := Value.zero
  let sourceType ← source.Typ p
  let reflectType ← indirectType fuel p sourceType
  if reflectType.Kind p != .Struct then pure method
  else methodByJSONTagLoop p h source jsonTag (reflectType.NumMethod p) 0 method

/-! ## The package: set and Copy -/

/-- Append the result of a returned call of `set` to the ghost log. -/
def logSet (m : Exec Bool) : Exec Bool :=
  fun st =>
    match m st with
    | .ok b st' => .ok b { st' with setLog := st'.setLog ++ [b] }
    | .fail f st' => .fail f st'

/-- The call `scanner.Scan(from.Interface())` of `set`, for the scanner
`to.Addr()`; the result is whether `Scan` returned an error. -/
def scanInto (p : Program) (toType : GoType) (to_ from_ : Value) : Exec Bool := do
  let arg ← readHeap (fun h => from_.Interface p h)
  match to_ with
  | .mk _ (.addr l) _ _ _ => p.scan toType l arg
  | _ => liftR (.error .stuck)

/-- Lines 229-241 of `set`: convert and assign, or scan, or retry on the
pointee of `from`; `retry` is the recursive call of `set`. -/
def setAssign (p : Program) (retry : Value → Value → Exec Bool) (to_ from_ : Value) :
    Exec Bool := do
  let fromType ← liftR (from_.Typ p)
  let toType ← liftR (to_.Typ p)
  let convertible ← liftR (fromType.ConvertibleTo p toType)
  if convertible then do
    let converted ← readHeap (fun h => from_.Convert p h toType)
    to_.Set p converted
    pure true
  else do
    let addr ← liftR to_.Addr
    let _ ← readHeap (fun h => addr.Interface p h)
    if implementsScanner p toType then do
      let err ← scanInto p toType to_ from_
      pure (!err)
    else if from_.Kind p == .Ptr then do
      let elem ← readHeap (fun h => from_.Elem p h)
      retry to_ elem
    else pure false

/-- Lines 223-225 of `set`: give a nil pointer destination a fresh pointee. -/
def allocIfNil (fuel : Nat) (p : Program) (to_ : Value) : Exec Unit := do
  let toNil ← readHeap (fun h => to_.IsNil p h)
  if toNil then do
    let toType ← liftR (to_.Typ p)
    let elemType ← liftR (toType.Elem p)
    let fresh ← New fuel p elemType
    to_.Set p fresh
  else pure ()

/-- Lines 218-227 of `set`, for a destination of pointer kind. -/
def setPtr (fuel : Nat) (p : Program) (retry : Value → Value → Exec Bool)
    (to_ from_ : Value) : Exec Bool := do
  let fromNil ← readHeap (fun h =>
    if from_.Kind p == .Ptr then from_.IsNil p h else .ok false)
  if fromNil then do
    let toType ← liftR (to_.Typ p)
    let zeroValue ← liftR (Zero fuel p toType)
    to_.Set p zeroValue
    pure true
  else do
    allocIfNil fuel p to_
    let pointee ← readHeap (fun h => to_.Elem p h)
    setAssign p retry pointee from_

/-- The function `set` of the source.  It declines at once when the two
package-level tags differ. -/
def set : Nat → Program → Value → Value → Exec Bool
  | 0, _, _, _ => fun st => .fail .timeout st
  | fuel + 1, p, to_, from_ => logSet (do
    let st ← getState
    if st.jsonTagFrom != st.jsonTagTo then pure false
    else if from_.IsValid then
      if to_.Kind p == .Ptr then setPtr (fuel + 1) p (set fuel p) to_ from_
      else setAssign p (set fuel p) to_ from_
    else pure true)

/-- Lines 92-97 of `Copy`: the method of the destination named like the source
field. -/
def toMethodOf (p : Program) (dest : Value) (name : String) : Exec Value :=
  if dest.CanAddr then do
    let addr ← liftR dest.Addr
    readHeap (fun h => addr.MethodByName p h name)
  else readHeap (fun h => dest.MethodByName p h name)

/-- The condition of line 99 of `Copy`. -/
def isSetterFor (p : Program) (toMethod fromField : Value) : Res Bool :=
  if toMethod.IsValid then do
    let mt ← toMethod.Typ p
    let numIn ← mt.NumIn p
    if numIn == 1 then do
      let ft ← fromField.Typ p
      let in0 ← mt.In p 0
      pure (ft.AssignableTo p in0)
    else pure false
  else pure false

/-- Lines 90-102 of `Copy`: no field was found, try a method of the
destination. -/
def trySetter (p : Program) (dest fromField : Value) (name : String) :
    Exec (Option String) := do
  let toMethod ← toMethodOf p dest name
  let callIt ← liftR (isSetterFor p toMethod fromField)
  if callIt then do
    let _ ← toMethod.Call p [fromField]
    pure none
  else pure none

/-- Lines 83-89 of `Copy`: `set`, and a recursive `Copy` when `set` declines;
`copy` is the recursive call. -/
def setOrCopy (fuel : Nat) (p : Program) (copy : Iface → Iface → Exec (Option String))
    (toField fromField : Value) : Exec (Option String) :=
  if toField.CanSet then do
    let done ← set fuel p toField fromField
    if !done then do
      let addr ← liftR toField.Addr
      let toArg ← readHeap (fun h => addr.Interface p h)
      let fromArg ← readHeap (fun h => fromField.Interface p h)
      copy toArg fromArg
    else pure none
  else pure none

/-- The body of the field loop of `Copy` (lines 74-103) for one field of the
source type.  The "destination field" `toField` is looked up on `source`, as
in the source text.  The result is `some err` when the step makes `Copy`
return `err`. -/
def fieldStep (fuel : Nat) (p : Program) (copy : Iface → Iface → Exec (Option String))
    (source dest : Value) (field : StructField) : Exec (Option String) := do
  let name := field.Name
  let fieldJSONTag := field.Tag
  let fromField ← liftR (fieldByJSONTag fuel p source fieldJSONTag)
  if fromField.IsValid then do
    let toField ← liftR (fieldByJSONTag fuel p source fieldJSONTag)
    if toField.IsValid then setOrCopy fuel p copy toField fromField
    else trySetter p dest fromField name
  else pure none

/-- The field pass of `Copy` (lines 72-104) over the remaining fields of the
source type. -/
def fieldPass (fuel : Nat) (p : Program) (copy : Iface → Iface → Exec (Option String))
    (source dest : Value) : List StructField → Exec (Option String)
  | [] => pure none
  | field :: rest => do
    let r ← fieldStep fuel p copy source dest field
    match r with
    | some err => pure (some err)
    | none => fieldPass fuel p copy source dest rest

/-- Lines 111-118 of `Copy`: the method of the source for a tag. -/
def fromMethodOf (fuel : Nat) (p : Program) (source : Value) (fieldJSONTag : String) :
    Exec Value :=
  if source.CanAddr then do
    let addr ← liftR source.Addr
    readHeap (fun h => methodByJSONTag fuel p h addr fieldJSONTag)
  else readHeap (fun h => methodByJSONTag fuel p h source fieldJSONTag)

/-- The condition of line 120 of `Copy`. -/
def isGetter (p : Program) (fromMethod : Value) : Res Bool :=
  if fromMethod.IsValid then do
    let mt ← fromMethod.Typ p
    let numIn ← mt.NumIn p
    if numIn == 0 then do
      let numOut ← mt.NumOut p
      pure (numOut == 1)
    else pure false
  else pure false

/-- Lines 122-127 of `Copy`: call the getter and `set` its result into the
field of the destination found under the Go name of the field. -/
def callGetter (fuel : Nat) (p : Program) (dest fromMethod : Value) (name : String) :
    Exec Unit := do
  let toField ← liftR (fieldByJSONTag fuel p dest name)
  if toField.IsValid && toField.CanSet then do
    let values ← fromMethod.Call p []
    match values with
    | v :: _ => do
      let _ ← set fuel p toField v
      pure ()
    | [] => pure ()
  else pure ()

/-- The body of the method loop of `Copy` (lines 108-128) for one field of the
destination type. -/
def methodStep (fuel : Nat) (p : Program) (source dest : Value) (field : StructField) :
    Exec Unit := do
  let name := field.Name
  let fieldJSONTag := field.Tag
  let fromMethod ← fromMethodOf fuel p source fieldJSONTag
  let getter ← liftR (isGetter p fromMethod)
  if getter then callGetter fuel p dest fromMethod name
  else pure ()

/-- The method pass of `Copy` (lines 107-129) over the remaining fields of the
destination type. -/
def methodPass (fuel : Nat) (p : Program) (source dest : Value) :
    List StructField → Exec Unit
  | [] => pure ()
  | field :: rest => do
    methodStep fuel p source dest field
    methodPass fuel p source dest rest

/-- The append at the end of an iteration in slice mode (lines 131-139). -/
def appendDest (p : Program) (to_ dest : Value) : Exec Unit := do
  let destAddr ← liftR dest.Addr
  let destAddrType ← liftR (destAddr.Typ p)
  let toType ← liftR (to_.Typ p)
  let elemType ← liftR (toType.Elem p)
  if destAddrType.AssignableTo p elemType then do
    let appended ← Append p to_ destAddr
    to_.Set p appended
  else do
    let destType ← liftR (dest.Typ p)
    if destType.AssignableTo p elemType then do
      let appended ← Append p to_ dest
      to_.Set p appended
    else pure ()

/-- Lines 57-67 of `Copy`: the source and the destination of iteration `i`. -/
def sourceAndDest (fuel : Nat) (p : Program) (isSlice : Bool) (from_ to_ : Value)
    (toType : GoType) (i : Nat) : Exec (Value × Value) :=
  if isSlice then do
    let source ← (
      if from_.Kind p == .Slice then do
        let elem ← readHeap (fun h => from_.Index p h i)
        readHeap (fun h => indirect fuel p h elem)
      else readHeap (fun h => indirect fuel p h from_))
    let fresh ← New fuel p toType
    let freshElem ← readHeap (fun h => fresh.Elem p h)
    let dest ← readHeap (fun h => indirect fuel p h freshElem)
    pure (source, dest)
  else do
    let source ← readHeap (fun h => indirect fuel p h from_)
    let dest ← readHeap (fun h => indirect fuel p h to_)
    pure (source, dest)

/-- Lines 69-130 of `Copy`: the field pass and the method pass on a valid
source. -/
def bothPasses (fuel : Nat) (p : Program) (copy : Iface → Iface → Exec (Option String))
    (source dest : Value) (fromType toType : GoType) : Exec (Option String) :=
  if source.IsValid then do
    let fromTypeFields ← liftR (deepFields fuel p fromType)
    let r ← fieldPass fuel p copy source dest fromTypeFields
    match r with
    | some err => pure (some err)
    | none => do
      let toTypeFields ← liftR (deepFields fuel p toType)
      methodPass fuel p source dest toTypeFields
      pure none
  else pure none

/-- One iteration of the loop of `Copy` (lines 55-139), for index `i`.  The
result is `some err` when the iteration makes `Copy` return `err`. -/
def copyElem (fuel : Nat) (p : Program) (copy : Iface → Iface → Exec (Option String))
    (isSlice : Bool) (from_ to_ : Value) (fromType toType : GoType) (i : Nat) :
    Exec (Option String) := do
  let sd ← sourceAndDest fuel p isSlice from_ to_ toType i
  let r ← bothPasses fuel p copy sd.1 sd.2 fromType toType
  match r with
  | some err => pure (some err)
  | none =>
    if isSlice then do
      appendDest p to_ sd.2
      pure none
    else pure none

/-- The loop `for i := 0; i < amount; i++` of `Copy`, with `todo` iterations
left. -/
def copyLoop (fuel : Nat) (p : Program) (copy : Iface → Iface → Exec (Option String))
    (isSlice : Bool) (from_ to_ : Value) (fromType toType : GoType) :
    Nat → Nat → Exec (Option String)
  | 0, _ => pure none
  | todo + 1, i => do
    let r ← copyElem fuel p copy isSlice from_ to_ fromType toType i
    match r with
    | some err => pure (some err)
    | none => copyLoop fuel p copy isSlice from_ to_ fromType toType todo (i + 1)

/-- Lines 47-52 of `Copy`: the number of iterations. -/
def amountOf (p : Program) (isSlice : Bool) (from_ : Value) : Exec Nat :=
  if isSlice && from_.Kind p == .Slice then readHeap (fun h => from_.Len p h)
  else pure 1

/-- Lines 31-141 of `Copy`, reached with an addressable `to` and a valid
`from`; `copy` is the recursive call. -/
def copyValid (fuel : Nat) (p : Program) (copy : Iface → Iface → Exec (Option String))
    (to_ from_ : Value) : Exec (Option String) := do
  let fromValueType ← liftR (from_.Typ p)
  let fromType ← liftR (indirectType fuel p fromValueType)
  let toValueType ← liftR (to_.Typ p)
  let toType ← liftR (indirectType fuel p toValueType)
  let toFirst ← liftR (toValueType.Field p 0)
  setJsonTagTo toFirst.Tag
  let fromFirst ← liftR (fromValueType.Field p 0)
  setJsonTagFrom fromFirst.Tag
  let st ← getState
  if fromType.Kind p != .Struct && fromValueType.AssignableTo p toValueType &&
      st.jsonTagFrom == st.jsonTagTo then do
    to_.Set p from_
    pure none
  else if fromType.Kind p != .Struct || toType.Kind p != .Struct then pure none
  else do
    let isSlice := to_.Kind p == .Slice
    let amount ← amountOf p isSlice from_
    copyLoop fuel p copy isSlice from_ to_ fromType toType amount 0

/-- The function `Copy` of the source.  The result is the returned error:
`none` for `nil`, `some msg` for `errors.New(msg)`. -/
def Copy : Nat → Program → Iface → Iface → Exec (Option String)
  | 0, _, _, _ => fun st => .fail .timeout st
  | fuel + 1, p, toValue, fromValue => do
    let from_ ← readHeap (fun h => indirect (fuel + 1) p h (ValueOf fromValue))
    let to_ ← readHeap (fun h => indirect (fuel + 1) p h (ValueOf toValue))
    if !to_.CanAddr then pure (some "copy to value is unaddressable")
    else if !from_.IsValid then pure none
    else copyValid (fuel + 1) p (Copy fuel p) to_ from_

/-! ## Observations on outcomes -/

/-- The returned value of a run, when it returned. -/
def Outcome.result {α : Type} : Outcome α → Option α
  | .ok a _ => some a
  | .fail _ _ => none

/-- The fault of a run, when it did not return. -/
def Outcome.fault {α : Type} : Outcome α → Option Fault
  | .ok _ _ => none
  | .fail f _ => some f

/-- The final state of a run. -/
def Outcome.state {α : Type} : Outcome α → State
  | .ok _ s => s
  | .fail _ s => s

/-! ## Concrete programs used as test inputs -/

/-- A table entry for the indices a test program does not declare. -/
def noDecl : TypeDecl := ⟨"", .struct [], [], []⟩

/-- A program with the given type table and no methods. -/
def programOf (types : Nat → TypeDecl) : Program where
  types := types
  call := fun _ _ _ _ st => .fail .stuck st
  scan := fun _ _ _ st => .fail .stuck st

/-- Types `S = struct { A int32 "json:a" }` (entry 0) and
`D = struct { X int64 "json:a" }` (entry 1). -/
def convProgram : Program :=
  programOf fun n =>
    match n with
    | 0 => ⟨"S", .struct [⟨"A", "a", false, "", .basic .int32⟩], [], []⟩
    | 1 => ⟨"D", .struct [⟨"X", "a", false, "", .basic .int64⟩], [], []⟩
    | _ => noDecl

/-- A store holding `d`, a zeroed `D`, as object 0. -/
def convState : State := ⟨[.struct [.int 0]], "", "", []⟩

/-- The argument `&d`. -/
def convTo : Iface := some (.ptr (.named 1), .ptr ⟨0, []⟩)

/-- The argument `s = S{A: 7}`. -/
def convFrom : Iface := some (.named 0, .struct [.int 7])

/-- Type `T = struct { ID int "json:id"; Name string "json:name" }`
(entry 0). -/
def identProgram : Program :=
  programOf fun n =>
    match n with
    | 0 => ⟨"T", .struct [⟨"ID", "id", false, "", .basic .int⟩,
        ⟨"Name", "name", false, "", .basic .string⟩], [], []⟩
    | _ => noDecl

/-- A store holding `d`, a zeroed `T`, as object 0. -/
def identState : State := ⟨[.struct [.int 0, .str ""]], "", "", []⟩

/-- The argument `&d`. -/
def identTo : Iface := some (.ptr (.named 0), .ptr ⟨0, []⟩)

/-- The argument `s = T{ID: 1, Name: "a"}`. -/
def identFrom : Iface := some (.named 0, .struct [.int 1, .str "a"])

/-- A store holding `d`, an `int` variable set to 0, as object 0. -/
def scalarState : State := ⟨[.int 0], "", "", []⟩

/-- The argument `&d` for `d` of type `int`. -/
def scalarTo : Iface := some (.ptr (.basic .int), .ptr ⟨0, []⟩)

/-- The argument `v = 5` of type `int`. -/
def scalarFromInt : Iface := some (.basic .int, .int 5)

/-- The argument `v = "x"` of type `string`. -/
def scalarFromString : Iface := some (.basic .string, .str "x")

/-- A store holding `dst`, an empty (nil) `[]D`, as object 0 and the backing
array of `src = []S{{A: 1}, {A: 2}}` as object 1. -/
def sliceState : State :=
  ⟨[.nil, .struct [.struct [.int 1], .struct [.int 2]]], "", "", []⟩

/-- The argument `&dst` for `dst` of type `[]D` (types of `convProgram`). -/
def sliceTo : Iface := some (.ptr (.slice (.named 1)), .ptr ⟨0, []⟩)

/-- The argument `src`, a `[]S` of length 2. -/
def sliceFrom : Iface := some (.slice (.named 0), .slice 1 2)

/-- Types `G = struct {}` (entry 0), `F = struct { G }` (entry 1, `G`
embedded and untagged), `S = struct { A F "json:s"; B F "json:b" }` (entry 2)
and `D = struct { A F "json:d" }` (entry 3): the fields `A` of `S` and of `D`
share their Go name and differ in their tag. -/
def gateProgram : Program :=
  programOf fun n =>
    match n with
    | 0 => ⟨"G", .struct [], [], []⟩
    | 1 => ⟨"F", .struct [⟨"G", "", true, "", .named 0⟩], [], []⟩
    | 2 => ⟨"S", .struct [⟨"A", "s", false, "", .named 1⟩,
        ⟨"B", "b", false, "", .named 1⟩], [], []⟩
    | 3 => ⟨"D", .struct [⟨"A", "d", false, "", .named 1⟩], [], []⟩
    | _ => noDecl

/-- A store holding `d`, a zero `D`, as object 0 and `s`, a zero `S`, as
object 1. -/
def gateState : State :=
  ⟨[.struct [.struct [.struct []]],
    .struct [.struct [.struct []], .struct [.struct []]]], "", "", []⟩

/-- The argument `&d`. -/
def gateTo : Iface := some (.ptr (.named 3), .ptr ⟨0, []⟩)

/-- The argument `&s`. -/
def gateFrom : Iface := some (.ptr (.named 2), .ptr ⟨1, []⟩)

/-- The type `type P *P` as entry 0. -/
def cyclicProgram : Program :=
  programOf fun n =>
    match n with
    | 0 => ⟨"P", .ptr (.named 0), [], []⟩
    | _ => noDecl

/-- A store holding as object 0 a variable `p` of type `P` with `p = &p`. -/
def cyclicState : State := ⟨[.ptr ⟨0, []⟩], "", "", []⟩

/-- The argument `p`, the pointer that points to itself. -/
def cyclicFrom : Iface := some (.named 0, .ptr ⟨0, []⟩)

/-- The type `type Tree []Tree` as entry 0. -/
def treeProgram : Program :=
  programOf fun n =>
    match n with
    | 0 => ⟨"Tree", .slice (.named 0), [], []⟩
    | _ => noDecl

/-- A store holding `d`, an `int` variable set to 0, as object 0 and the empty
backing array of `Tree{}` as object 1. -/
def treeState : State := ⟨[.int 0, .struct []], "", "", []⟩

/-- The argument `Tree{}`, an empty non-nil slice. -/
def treeFrom : Iface := some (.named 0, .slice 1 0)

/-- A store holding an `int` variable set to 5 as object 0, with the gate
open. -/
def fiveState : State := ⟨[.int 5], "", "", []⟩

/-- The settable `int` variable at object 0. -/
def intDest : Value := .mk (.basic .int) (.addr ⟨0, []⟩) false false none

/-- A nil `*int`. -/
def nilIntPtr : Value := .mk (.ptr (.basic .int)) (.imm .nil) false false none

/-- The settable `int8` variable at object 0. -/
def int8Dest : Value := .mk (.basic .int8) (.addr ⟨0, []⟩) false false none

/-- The value `int64(300)`. -/
def int64Of300 : Value := .mk (.basic .int64) (.imm (.int 300)) false false none

/-- A store holding as object 0 a `*int` variable that points to object 1, an
`int` set to 5, with the gate open. -/
def ptrState : State := ⟨[.ptr ⟨1, []⟩, .int 5], "", "", []⟩

/-- The settable `*int` variable at object 0. -/
def ptrDest : Value := .mk (.ptr (.basic .int)) (.addr ⟨0, []⟩) false false none

/-- Types `Inner = struct { X int "json:x"; Y string "json:y" }` (entry 0),
`Mid = struct { *Inner; Z int "json:z" }` (entry 1, `*Inner` embedded) and
`Outer = struct { A int "json:a"; Mid; B []Inner "json:b" }` (entry 2, `Mid`
embedded). -/
def embedProgram : Program :=
  programOf fun n =>
    match n with
    | 0 => ⟨"Inner", .struct [⟨"X", "x", false, "", .basic .int⟩,
        ⟨"Y", "y", false, "", .basic .string⟩], [], []⟩
    | 1 => ⟨"Mid", .struct [⟨"Inner", "", true, "", .ptr (.named 0)⟩,
        ⟨"Z", "z", false, "", .basic .int⟩], [], []⟩
    | 2 => ⟨"Outer", .struct [⟨"A", "a", false, "", .basic .int⟩,
        ⟨"Mid", "", true, "", .named 1⟩,
        ⟨"B", "b", false, "", .slice (.named 0)⟩], [], []⟩
    | _ => noDecl

/-! ## Predicates used in the statements -/

/-- `v` is a field of `source` of the kind the loop of `fieldByJSONTag` can
return: it was read by `source.Field(i)` and its type has a first field. -/
def IsScannedField (p : Program) (source v : Value) : Prop :=
  ∃ i ft sf, source.Field p i = .ok v ∧ v.Typ p = .ok ft ∧ ft.Field p 0 = .ok sf

/-- The state `st'` keeps the store of `st` and extends its log of `set`
results at the end. -/
def Keeps (st st' : State) : Prop :=
  st'.heap = st.heap ∧ ∃ l, st'.setLog = st.setLog ++ l

/-- Two outcomes agree up to the package-level tags: both runs returned the
same value, or both failed with the same fault, and the final stores and logs
of `set` results are equal. -/
def Outcome.agree {α : Type} (o1 o2 : Outcome α) : Prop :=
  match o1, o2 with
  | .ok a s, .ok b t => a = b ∧ s.heap = t.heap ∧ s.setLog = t.setLog
  | .fail f s, .fail g t => f = g ∧ s.heap = t.heap ∧ s.setLog = t.setLog
  | _, _ => False

/-- The type `t` is a struct type with at least one field. -/
def IsNonEmptyStruct (p : Program) (t : GoType) : Prop :=
  ∃ f fs, t.underlying p = .struct (f :: fs)

/-- The integer `n` is representable in an integer type of the given
signedness and width. -/
def inRange (signed : Bool) (w : Nat) (n : Int) : Prop :=
  if signed then -(2 : Int) ^ (w - 1) ≤ n ∧ n < 2 ^ (w - 1) else 0 ≤ n ∧ n < 2 ^ w

/-- The concatenation, in declaration order, of `[f]` for each non-embedded
field `f` and of `deep (type of f)` for each embedded field `f`. -/
def flattenList (deep : GoType → Res (List StructField)) :
    List StructField → Res (List StructField)
  | [] => .ok []
  | f :: rest =>
    match (if f.Anonymous then deep f.Typ else .ok [f]) with
    | .error e => .error e
    | .ok front =>
      match flattenList deep rest with
      | .error e => .error e
      | .ok back => .ok (front ++ back)

/-- The depth-first flattening of a type as the specification words it: after
stripping pointer and slice layers, the empty list if the result is not a
struct, and otherwise the concatenation over its fields given by
`flattenList`. -/
def flattenSpec : Nat → Program → GoType → Res (List StructField)
  | 0, _, _ => .error .timeout
  | fuel + 1, p, t =>
    match indirectType (fuel + 1) p t with
    | .error e => .error e
    | .ok stripped =>
      match stripped.underlying p with
      | .struct fs => flattenList (flattenSpec fuel p) fs
      | _ => .ok []

/-- Whether a run returned. -/
def Outcome.isOk {α : Type} : Outcome α → Bool
  | .ok _ _ => true
  | .fail _ _ => false

/-- A run from `s` in which every call of `set` that returned passed the gate:
the store is kept, the log of `set` results grows by results `true` only and,
when the run returns, the two package-level tags are those of `s`. -/
def OpenRun {α : Type} (s : State) (o : Outcome α) : Prop :=
  o.state.heap = s.heap ∧ (∃ k, o.state.setLog = s.setLog ++ List.replicate k true) ∧
    (o.isOk = true →
      o.state.jsonTagFrom = s.jsonTagFrom ∧ o.state.jsonTagTo = s.jsonTagTo)

/-- A run from `s` that keeps the store, logs results `true` only and, when it
returns, ends with the two package-level tags equal. -/
def NestedRun {α : Type} (s : State) (o : Outcome α) : Prop :=
  o.state.heap = s.heap ∧ (∃ k, o.state.setLog = s.setLog ++ List.replicate k true) ∧
    (o.isOk = true → o.state.jsonTagFrom = o.state.jsonTagTo)

/-- A run from `s` in which nothing happened to the state, or in which the
store was kept, the first call of `set` that returned declined, every later one
passed the gate and, when the run returns, the two package-level tags are
equal. -/
def ClosedRun {α : Type} (s : State) (o : Outcome α) : Prop :=
  o.state = s ∨
    (o.state.heap = s.heap ∧
      (∃ k, o.state.setLog = s.setLog ++ false :: List.replicate k true) ∧
      (o.isOk = true → o.state.jsonTagFrom = o.state.jsonTagTo))

/-! ## Runs on the test inputs -/

/-- C1 (defect exhibited): on the witness of the claim, `S = {A int32}` and
`D = {X int64}` both tagged `a` and `s = {A: 7}`, the call `Copy(&d, s)` does
not return.  It records the two first-field tags and then panics inside
`fieldByJSONTag`, which asks the type `int32` of field `A` for its first
field; `d` still holds 0, not 7. -/
theorem Copy_conv_panics :
    Copy 5 convProgram convTo convFrom convState =
      .fail (.panic "reflect: Field of non-struct type")
        ⟨[.struct [.int 0]], "a", "a", []⟩ ∧
    fieldByJSONTag 5 convProgram
        (.mk (.named 0) (.imm (.struct [.int 7])) false false none) "a" =
      .error (.panic "reflect: Field of non-struct type") := by
  constructor <;> rfl

/-- C2 (defect exhibited): copying `s = T{ID: 1, Name: "a"}` into a zeroed `T`
through `Copy(&d, s)` does not return.  It panics inside `fieldByJSONTag`,
which asks the type `int` of field `ID` for its first field; `d` keeps its zero
fields. -/
theorem Copy_identity_panics :
    Copy 5 identProgram identTo identFrom identState =
      .fail (.panic "reflect: Field of non-struct type")
        ⟨[.struct [.int 0, .str ""]], "id", "id", []⟩ ∧
    fieldByJSONTag 5 identProgram
        (.mk (.named 0) (.imm (.struct [.int 1, .str "a"])) false false none) "id" =
      .error (.panic "reflect: Field of non-struct type") := by
  constructor <;> rfl

/-! ## Reasoning about computations -/

theorem bind_ok_iff {α β : Type} (m : Exec α) (f : α → Exec β) (st st' : State) (b : β) :
    (m >>= f) st = .ok b st' ↔ ∃ a s1, m st = .ok a s1 ∧ f a s1 = .ok b st' := by
  show Exec.bind m f st = _ ↔ _
  unfold Exec.bind
  cases h : m st with
  | ok a s1 =>
    constructor
    · intro h'; exact ⟨a, s1, rfl, h'⟩
    · rintro ⟨a', s', h1, h2⟩
      cases h1
      exact h2
  | fail e s1 => simp

theorem pure_ok_iff {α : Type} (a b : α) (st st' : State) :
    (pure a : Exec α) st = .ok b st' ↔ a = b ∧ st = st' := by
  show Exec.pure a st = _ ↔ _
  simp [Exec.pure]

theorem liftR_ok_iff {α : Type} (r : Res α) (st st' : State) (b : α) :
    liftR r st = .ok b st' ↔ r = .ok b ∧ st = st' := by
  cases r <;> simp [liftR]

theorem readHeap_ok_iff {α : Type} (f : Heap → Res α) (st st' : State) (b : α) :
    readHeap f st = .ok b st' ↔ f st.heap = .ok b ∧ st = st' := by
  simp [readHeap, liftR_ok_iff]

theorem getState_ok_iff (st st' s : State) :
    getState st = .ok s st' ↔ st = s ∧ st = st' := by
  simp [getState]

theorem list_set_self {α : Type} (l : List α) (i : Nat) (a : α)
    (h : l[i]? = some a) : l.set i a = l := by
  induction l generalizing i with
  | nil => simp
  | cons x xs ih =>
    cases i with
    | zero => simp at h; simp [h]
    | succ j => simp at h; simp [ih j h]

theorem GoVal.writePath_readPath_self (v : GoVal) (path : List Nat) (x : GoVal)
    (h : v.readPath path = some x) : v.writePath path x = some v := by
  induction path generalizing v with
  | nil => simp [GoVal.readPath] at h; simp [GoVal.writePath, h]
  | cons i rest ih =>
    cases v <;> simp [GoVal.readPath] at h
    case struct fs =>
      cases hf : fs[i]? with
      | none => simp [hf] at h
      | some f =>
        simp [hf] at h
        simp [GoVal.writePath, hf, ih f h]
        exact list_set_self fs i f hf

theorem Heap.write_read_self (h : Heap) (l : Loc) (x : GoVal)
    (hr : h.read l = some x) : h.write l x = some h := by
  unfold Heap.read at hr
  unfold Heap.write
  cases ho : h[l.base]? with
  | none => simp [ho] at hr
  | some o =>
    simp [ho] at hr
    simp [GoVal.writePath_readPath_self o l.path x hr]
    exact list_set_self h l.base o ho

/-! ## Facts about types and Values -/

theorem GoType.Field_ok_kind (p : Program) (t : GoType) (i : Nat) (f : StructField)
    (h : t.Field p i = .ok f) : t.Kind p = .Struct := by
  unfold GoType.Field at h
  unfold GoType.Kind
  cases hu : t.underlying p <;> simp [hu, throwPanic] at h
  simp [Underlying.kind]

theorem GoType.Field_func (p : Program) (t : GoType) (i : Nat)
    (h : t.Kind p = .Func) : t.Field p i = throwPanic "reflect: Field of non-struct type" := by
  unfold GoType.Kind at h
  unfold GoType.Field
  cases hu : t.underlying p <;> simp [hu, Underlying.kind] at h ⊢

theorem Value.Typ_kind (p : Program) (v : Value) (t : GoType)
    (h : v.Typ p = .ok t) : v.Kind p = t.Kind p := by
  cases v with
  | zero => simp [Value.Typ, throwPanic] at h
  | mk vt d s e m =>
    cases m with
    | none => simp [Value.Typ] at h; simp [Value.Kind, h]
    | some i =>
      simp only [Value.Typ] at h
      cases hm : (vt.methodSet p)[i]? with
      | none => simp [hm] at h
      | some m =>
        simp only [hm] at h
        split at h
        · rename_i hk
          simp at h
          subst h
          simp at hk
          simp [Value.Kind, hk]
        · simp at h

theorem indirect_of_not_ptr (fuel : Nat) (p : Program) (h : Heap) (v : Value)
    (hk : v.Kind p ≠ .Ptr) : indirect (fuel + 1) p h v = .ok v := by
  simp [indirect, hk]

theorem indirectType_of_struct (fuel : Nat) (p : Program) (t : GoType)
    (hk : t.Kind p = .Struct) : indirectType (fuel + 1) p t = .ok t := by
  simp [indirectType, hk]

theorem bind_liftR {α β : Type} (r : Res α) (f : α → Exec β) (st : State) :
    (liftR r >>= f) st =
      match r with
      | .ok a => f a st
      | .error e => .fail e st := by
  cases r <;> rfl

theorem bind_readHeap {α β : Type} (g : Heap → Res α) (f : α → Exec β) (st : State) :
    (readHeap g >>= f) st =
      match g st.heap with
      | .ok a => f a st
      | .error e => .fail e st := by
  show Exec.bind (readHeap g) f st = _
  unfold Exec.bind readHeap
  cases g st.heap <;> rfl

theorem bind_getState {β : Type} (f : State → Exec β) (st : State) :
    (getState >>= f) st = f st st := rfl

theorem bind_pure {α β : Type} (a : α) (f : α → Exec β) (st : State) :
    ((pure a : Exec α) >>= f) st = f a st := rfl

theorem pure_apply {α : Type} (a : α) (st : State) :
    (pure a : Exec α) st = .ok a st := rfl

theorem bind_apply {α β : Type} (m : Exec α) (f : α → Exec β) (st : State) :
    (m >>= f) st =
      match m st with
      | .ok a s1 => f a s1
      | .fail e s1 => .fail e s1 := rfl

/-! ## The field lookup -/

theorem fieldByJSONTagLoop_ok (p : Program) (source : Value) (jsonTag : String)
    (todo i : Nat) (v0 v : Value)
    (h : fieldByJSONTagLoop p source jsonTag todo i v0 = .ok v) :
    v = v0 ∨ IsScannedField p source v := by
  induction todo generalizing i v0 with
  | zero => simp [fieldByJSONTagLoop] at h; exact Or.inl h.symm
  | succ n ih =>
    simp only [fieldByJSONTagLoop] at h
    cases hf : source.Field p i with
    | error e => simp [hf] at h
    | ok field =>
      simp only [hf] at h
      cases ht : field.Typ p with
      | error e => simp [ht] at h
      | ok ft =>
        simp only [ht] at h
        cases hs : ft.Field p 0 with
        | error e => simp [hs] at h
        | ok sf =>
          simp only [hs] at h
          split at h
          · simp at h
            subst h
            exact Or.inr ⟨i, ft, sf, hf, ht, hs⟩
          · rcases ih (i + 1) field h with h1 | h1
            · subst h1
              exact Or.inr ⟨i, ft, sf, hf, ht, hs⟩
            · exact Or.inr h1

theorem fieldByJSONTag_ok (fuel : Nat) (p : Program) (source : Value) (jsonTag : String)
    (v : Value) (h : fieldByJSONTag fuel p source jsonTag = .ok v) :
    v = .zero ∨ IsScannedField p source v := by
  unfold fieldByJSONTag at h
  simp only [bind, Except.bind, pure, Except.pure] at h
  cases ht : source.Typ p with
  | error e => simp [ht] at h
  | ok t =>
    simp only [ht] at h
    cases hi : indirectType fuel p t with
    | error e => simp [hi] at h
    | ok rt =>
      simp only [hi] at h
      split at h
      · simp at h; exact Or.inl h.symm
      · cases hn : rt.NumField p with
        | error e => simp [hn] at h
        | ok n =>
          simp only [hn] at h
          exact fieldByJSONTagLoop_ok p source jsonTag n 0 .zero v h

theorem IsScannedField.shape (p : Program) (source v : Value)
    (h : IsScannedField p source v) :
    ∃ t d s e, v = .mk t d s e none ∧ t.Kind p = .Struct := by
  obtain ⟨i, ft, sf, hf, ht, hs⟩ := h
  cases v with
  | zero => simp [Value.Typ, throwPanic] at ht
  | mk t d s e m =>
    cases m with
    | none =>
      simp [Value.Typ] at ht
      subst ht
      exact ⟨t, d, s, e, rfl, GoType.Field_ok_kind p t 0 sf hs⟩
    | some j =>
      have hk := Value.Typ_kind p _ _ ht
      have hk2 := GoType.Field_ok_kind p ft 0 sf hs
      simp [Value.Kind, hk2] at hk

/-! ## set on a field and itself -/

theorem ConvertibleTo_self_struct (p : Program) (t : GoType) (hk : t.Kind p = .Struct) :
    t.ConvertibleTo p t = .ok true := by
  simp [GoType.ConvertibleTo, hk, isIntKind, intBits, haveIdenticalUnderlyingType]

theorem Convert_self_struct (p : Program) (h : Heap) (t : GoType) (l : Loc) (x : GoVal)
    (hk : t.Kind p = .Struct) (hr : h.read l = some x) :
    (Value.mk t (.addr l) false false none).Convert p h t =
      .ok (.mk t (.imm x) false false none) := by
  simp [Value.Convert, ConvertibleTo_self_struct p t hk, Value.load, hr, hk, isIntKind, intBits]

theorem Set_self (p : Program) (t : GoType) (l : Loc) (x : GoVal) (st : State)
    (hr : st.heap.read l = some x) :
    (Value.mk t (.addr l) false false none).Set p (.mk t (.imm x) false false none) st =
      .ok () st := by
  simp [Value.Set, assignTo, directlyAssignable, Value.load, Heap.write_read_self _ _ _ hr]

theorem setAssign_self (p : Program) (retry : Value → Value → Exec Bool) (t : GoType)
    (l : Loc) (st st' : State) (b : Bool) (hk : t.Kind p = .Struct)
    (h : setAssign p retry (.mk t (.addr l) false false none)
      (.mk t (.addr l) false false none) st = .ok b st') :
    b = true ∧ st' = st := by
  unfold setAssign at h
  simp only [bind_liftR, Value.Typ, ConvertibleTo_self_struct p t hk, if_true, bind_readHeap] at h
  cases hr : st.heap.read l with
  | none => simp [Value.Convert, ConvertibleTo_self_struct p t hk, Value.load, hr] at h
  | some x =>
    rw [Convert_self_struct p st.heap t l x hk hr] at h
    simp only [bind_apply, Set_self p t l x st hr, pure_apply] at h
    simp at h
    exact ⟨h.1, h.2.symm⟩

theorem set_self (fuel : Nat) (p : Program) (t : GoType) (l : Loc) (st st' : State)
    (b : Bool) (hk : t.Kind p = .Struct)
    (h : set fuel p (.mk t (.addr l) false false none)
      (.mk t (.addr l) false false none) st = .ok b st') :
    st' = { st with setLog := st.setLog ++ [b] } ∧
      (b = true ↔ st.jsonTagFrom = st.jsonTagTo) := by
  cases fuel with
  | zero => simp [set] at h
  | succ n =>
    simp only [set, logSet, bind_getState] at h
    by_cases hg : st.jsonTagFrom = st.jsonTagTo
    · simp only [hg, bne_self_eq_false, Bool.false_eq_true, if_false, Value.IsValid, if_true,
        Value.Kind, hk] at h
      simp at h
      split at h
      · rename_i b1 s1 hs
        have := setAssign_self p _ t l st s1 b1 hk hs
        simp at h
        obtain ⟨rfl, rfl⟩ := this
        obtain ⟨rfl, rfl⟩ := h
        simp [hg]
      · simp at h
    · have hne : (st.jsonTagFrom != st.jsonTagTo) = true := by simpa using hg
      simp only [hne, if_true, pure_apply] at h
      simp at h
      obtain ⟨rfl, rfl⟩ := h
      simp [hg]

/-! ## The method lookup never finds a method -/

theorem Value.Method_kind (p : Program) (h : Heap) (v m : Value) (i : Nat)
    (hm : v.Method p h i = .ok m) : m.Kind p = .Func := by
  cases v with
  | zero => simp [Value.Method, throwPanic] at hm
  | mk t d s e mi =>
    cases mi with
    | some j => simp [Value.Method, throwPanic] at hm
    | none =>
      simp only [Value.Method] at hm
      split at hm
      · simp [throwPanic] at hm
      · split at hm
        · split at hm <;> simp [throwPanic] at hm
          subst hm
          rfl
        · simp at hm
          subst hm
          rfl

theorem methodByJSONTagLoop_ok (p : Program) (h : Heap) (source : Value) (jsonTag : String)
    (todo i : Nat) (v0 v : Value)
    (hv : methodByJSONTagLoop p h source jsonTag todo i v0 = .ok v) : v = v0 := by
  cases todo with
  | zero => simp [methodByJSONTagLoop] at hv; exact hv.symm
  | succ n =>
    simp only [methodByJSONTagLoop] at hv
    cases hm : source.Method p h i with
    | error e => simp [hm] at hv
    | ok method =>
      simp only [hm] at hv
      cases ht : method.Typ p with
      | error e => simp [ht] at hv
      | ok mt =>
        simp only [ht] at hv
        have hk : mt.Kind p = .Func := by
          rw [← Value.Typ_kind p method mt ht]
          exact Value.Method_kind p h source method i hm
        rw [GoType.Field_func p mt 0 hk] at hv
        simp [throwPanic] at hv

theorem methodByJSONTag_ok (fuel : Nat) (p : Program) (h : Heap) (source : Value)
    (jsonTag : String) (v : Value)
    (hv : methodByJSONTag fuel p h source jsonTag = .ok v) : v = .zero := by
  unfold methodByJSONTag at hv
  simp only [bind, Except.bind, pure, Except.pure] at hv
  cases ht : source.Typ p with
  | error e => simp [ht] at hv
  | ok t =>
    simp only [ht] at hv
    cases hi : indirectType fuel p t with
    | error e => simp [hi] at hv
    | ok rt =>
      simp only [hi] at hv
      split at hv
      · simp at hv; exact hv.symm
      · exact methodByJSONTagLoop_ok p h source jsonTag _ 0 .zero v hv

theorem fromMethodOf_ok (fuel : Nat) (p : Program) (source : Value) (tag : String)
    (st st' : State) (m : Value) (h : fromMethodOf fuel p source tag st = .ok m st') :
    m = .zero ∧ st' = st := by
  unfold fromMethodOf at h
  split at h
  · rw [bind_liftR] at h
    split at h
    · rw [readHeap_ok_iff] at h
      exact ⟨methodByJSONTag_ok _ _ _ _ _ _ h.1, h.2.symm⟩
    · simp at h
  · rw [readHeap_ok_iff] at h
    exact ⟨methodByJSONTag_ok _ _ _ _ _ _ h.1, h.2.symm⟩

theorem methodStep_ok (fuel : Nat) (p : Program) (source dest : Value)
    (field : StructField) (st st' : State)
    (h : methodStep fuel p source dest field st = .ok () st') : st' = st := by
  unfold methodStep at h
  rw [bind_ok_iff] at h
  obtain ⟨m, s1, h1, h2⟩ := h
  obtain ⟨rfl, rfl⟩ := fromMethodOf_ok _ _ _ _ _ _ _ h1
  simp [isGetter, Value.IsValid, bind_liftR, pure_apply, pure, Except.pure, Exec.pure] at h2
  exact h2.symm

theorem methodPass_ok (fuel : Nat) (p : Program) (source dest : Value)
    (fields : List StructField) (st st' : State)
    (h : methodPass fuel p source dest fields st = .ok () st') : st' = st := by
  induction fields generalizing st with
  | nil => simp [methodPass, pure_apply] at h; exact h.symm
  | cons field rest ih =>
    simp only [methodPass] at h
    rw [bind_ok_iff] at h
    obtain ⟨u, s1, h1, h2⟩ := h
    have := methodStep_ok _ _ _ _ _ _ _ h1
    subst this
    exact ih _ h2

/-! ## Copy keeps the store -/

theorem Keeps.refl (st : State) : Keeps st st := ⟨rfl, [], by simp⟩

theorem Keeps.trans {s1 s2 s3 : State} (h1 : Keeps s1 s2) (h2 : Keeps s2 s3) : Keeps s1 s3 := by
  obtain ⟨a1, l1, b1⟩ := h1
  obtain ⟨a2, l2, b2⟩ := h2
  exact ⟨a2.trans a1, l1 ++ l2, by rw [b2, b1, List.append_assoc]⟩

theorem canSet_shape (v : Value) (t : GoType) (d : Data) (s e : Bool)
    (hv : v = .mk t d s e none) (hc : v.CanSet = true) :
    ∃ l, v = .mk t (.addr l) false false none := by
  subst hv
  cases d with
  | imm x => simp [Value.CanSet, Value.CanAddr] at hc
  | addr l =>
    simp [Value.CanSet, Value.isRO] at hc
    obtain ⟨_, rfl, rfl⟩ := hc
    exact ⟨l, rfl⟩

theorem setOrCopy_keeps (fuel : Nat) (p : Program)
    (copy : Iface → Iface → Exec (Option String))
    (hcopy : ∀ a b s r s', copy a b s = .ok r s' → Keeps s s')
    (source v : Value) (hv : IsScannedField p source v) (st st' : State) (r : Option String)
    (h : setOrCopy fuel p copy v v st = .ok r st') : Keeps st st' := by
  unfold setOrCopy at h
  split at h
  · rename_i hc
    obtain ⟨t, d, s, e, hshape, hk⟩ := IsScannedField.shape p source v hv
    obtain ⟨l, rfl⟩ := canSet_shape v t d s e hshape hc
    rw [bind_ok_iff] at h
    obtain ⟨b, s1, h1, h2⟩ := h
    obtain ⟨rfl, _⟩ := set_self fuel p t l st s1 b hk h1
    have k1 : Keeps st { st with setLog := st.setLog ++ [b] } := ⟨rfl, [b], rfl⟩
    split at h2
    · simp only [bind_liftR, bind_readHeap] at h2
      split at h2
      · split at h2
        · split at h2
          · exact k1.trans (hcopy _ _ _ _ _ h2)
          · simp at h2
        · simp at h2
      · simp at h2
    · rw [pure_ok_iff] at h2
      rw [← h2.2]
      exact k1
  · rw [pure_ok_iff] at h
    rw [← h.2]
    exact Keeps.refl st

theorem fieldStep_keeps (fuel : Nat) (p : Program)
    (copy : Iface → Iface → Exec (Option String))
    (hcopy : ∀ a b s r s', copy a b s = .ok r s' → Keeps s s')
    (source dest : Value) (field : StructField) (st st' : State) (r : Option String)
    (h : fieldStep fuel p copy source dest field st = .ok r st') : Keeps st st' := by
  unfold fieldStep at h
  simp only [bind_liftR] at h
  cases hf : fieldByJSONTag fuel p source field.Tag with
  | error e => simp [hf] at h
  | ok v =>
    simp only [hf] at h
    split at h
    · rename_i hvalid
      rcases fieldByJSONTag_ok fuel p source field.Tag v hf with hz | hs
      · subst hz
        simp [Value.IsValid] at hvalid
      · simp only [bind_liftR, hvalid, if_true] at h
        exact setOrCopy_keeps fuel p copy hcopy source v hs st st' r h
    · rw [pure_ok_iff] at h
      rw [← h.2]
      exact Keeps.refl st

theorem fieldPass_keeps (fuel : Nat) (p : Program)
    (copy : Iface → Iface → Exec (Option String))
    (hcopy : ∀ a b s r s', copy a b s = .ok r s' → Keeps s s')
    (source dest : Value) (fields : List StructField) (st st' : State) (r : Option String)
    (h : fieldPass fuel p copy source dest fields st = .ok r st') : Keeps st st' := by
  induction fields generalizing st with
  | nil =>
    simp only [fieldPass] at h
    rw [pure_ok_iff] at h
    rw [← h.2]
    exact Keeps.refl st
  | cons field rest ih =>
    simp only [fieldPass] at h
    rw [bind_ok_iff] at h
    obtain ⟨r1, s1, h1, h2⟩ := h
    have k1 := fieldStep_keeps fuel p copy hcopy source dest field st s1 r1 h1
    cases r1 with
    | some err =>
      simp only [] at h2
      rw [pure_ok_iff] at h2
      rw [← h2.2]
      exact k1
    | none => exact k1.trans (ih s1 h2)

theorem bothPasses_keeps (fuel : Nat) (p : Program)
    (copy : Iface → Iface → Exec (Option String))
    (hcopy : ∀ a b s r s', copy a b s = .ok r s' → Keeps s s')
    (source dest : Value) (fromType toType : GoType) (st st' : State) (r : Option String)
    (h : bothPasses fuel p copy source dest fromType toType st = .ok r st') :
    Keeps st st' := by
  unfold bothPasses at h
  split at h
  · rw [bind_liftR] at h
    split at h
    · rw [bind_ok_iff] at h
      obtain ⟨r1, s1, h1, h2⟩ := h
      have k1 := fieldPass_keeps fuel p copy hcopy source dest _ st s1 r1 h1
      cases r1 with
      | some err =>
        simp only [] at h2
        rw [pure_ok_iff] at h2
        rw [← h2.2]
        exact k1
      | none =>
        simp only [bind_liftR] at h2
        split at h2
        · rw [bind_ok_iff] at h2
          obtain ⟨u, s2, h3, h4⟩ := h2
          have := methodPass_ok _ _ _ _ _ _ _ h3
          subst this
          rw [pure_ok_iff] at h4
          rw [← h4.2]
          exact k1
        · simp at h2
    · simp at h
  · rw [pure_ok_iff] at h
    rw [← h.2]
    exact Keeps.refl st

theorem sourceAndDest_ok (fuel : Nat) (p : Program) (from_ to_ : Value) (toType : GoType)
    (i : Nat) (st st' : State) (sd : Value × Value)
    (h : sourceAndDest fuel p false from_ to_ toType i st = .ok sd st') :
    indirect fuel p st.heap from_ = .ok sd.1 ∧ indirect fuel p st.heap to_ = .ok sd.2 ∧
      st' = st := by
  unfold sourceAndDest at h
  simp only [Bool.false_eq_true, if_false] at h
  rw [bind_ok_iff] at h
  obtain ⟨src, sa, ha, hb⟩ := h
  rw [readHeap_ok_iff] at ha
  obtain ⟨ha1, rfl⟩ := ha
  rw [bind_ok_iff] at hb
  obtain ⟨dst, sb, hb1, hb2⟩ := hb
  rw [readHeap_ok_iff] at hb1
  obtain ⟨hb1, rfl⟩ := hb1
  rw [pure_ok_iff] at hb2
  obtain ⟨rfl, rfl⟩ := hb2
  exact ⟨ha1, hb1, rfl⟩

theorem copyElem_keeps (fuel : Nat) (p : Program)
    (copy : Iface → Iface → Exec (Option String))
    (hcopy : ∀ a b s r s', copy a b s = .ok r s' → Keeps s s')
    (from_ to_ : Value) (fromType toType : GoType) (i : Nat) (st st' : State)
    (r : Option String)
    (h : copyElem fuel p copy false from_ to_ fromType toType i st = .ok r st') :
    Keeps st st' := by
  unfold copyElem at h
  rw [bind_ok_iff] at h
  obtain ⟨sd, s1, h1, h2⟩ := h
  obtain ⟨_, _, rfl⟩ := sourceAndDest_ok _ _ _ _ _ _ _ _ _ h1
  rw [bind_ok_iff] at h2
  obtain ⟨r1, s2, h3, h4⟩ := h2
  have k1 := bothPasses_keeps fuel p copy hcopy _ _ _ _ _ _ _ h3
  cases r1 with
  | some err =>
    simp only [] at h4
    rw [pure_ok_iff] at h4
    rw [← h4.2]
    exact k1
  | none =>
    simp only [Bool.false_eq_true, if_false] at h4
    rw [pure_ok_iff] at h4
    rw [← h4.2]
    exact k1

theorem copyLoop_keeps (fuel : Nat) (p : Program)
    (copy : Iface → Iface → Exec (Option String))
    (hcopy : ∀ a b s r s', copy a b s = .ok r s' → Keeps s s')
    (from_ to_ : Value) (fromType toType : GoType) (todo i : Nat) (st st' : State)
    (r : Option String)
    (h : copyLoop fuel p copy false from_ to_ fromType toType todo i st = .ok r st') :
    Keeps st st' := by
  induction todo generalizing i st with
  | zero =>
    simp only [copyLoop] at h
    rw [pure_ok_iff] at h
    rw [← h.2]
    exact Keeps.refl st
  | succ n ih =>
    simp only [copyLoop] at h
    rw [bind_ok_iff] at h
    obtain ⟨r1, s1, h1, h2⟩ := h
    have k1 := copyElem_keeps fuel p copy hcopy from_ to_ fromType toType i st s1 r1 h1
    cases r1 with
    | some err =>
      simp only [] at h2
      rw [pure_ok_iff] at h2
      rw [← h2.2]
      exact k1
    | none => exact k1.trans (ih (i + 1) s1 h2)

theorem indirectType_struct_ok (fuel : Nat) (p : Program) (t t' : GoType)
    (hk : t.Kind p = .Struct) (h : indirectType fuel p t = .ok t') : t' = t := by
  cases fuel with
  | zero => simp [indirectType] at h
  | succ n =>
    rw [indirectType_of_struct n p t hk] at h
    simp at h
    exact h.symm

/-- A call of `copyValid` that returns has found a first field in the types of
both values; these are struct types, so the run is one iteration of the loop
in non-slice mode, started after the two tags are recorded. -/
theorem copyValid_ok (fuel : Nat) (p : Program)
    (copy : Iface → Iface → Exec (Option String)) (to_ from_ : Value) (st st' : State)
    (r : Option String) (h : copyValid fuel p copy to_ from_ st = .ok r st') :
    ∃ ft tt ff tf, from_.Typ p = .ok ft ∧ to_.Typ p = .ok tt ∧
      ft.Field p 0 = .ok ff ∧ tt.Field p 0 = .ok tf ∧
      copyLoop fuel p copy false from_ to_ ft tt 1 0
        { st with jsonTagTo := tf.Tag, jsonTagFrom := ff.Tag } = .ok r st' := by
  unfold copyValid at h
  simp only [bind_liftR] at h
  cases hft : from_.Typ p with
  | error e => simp [hft] at h
  | ok ft =>
    simp only [hft] at h
    cases hfi : indirectType fuel p ft with
    | error e => simp [hfi] at h
    | ok fromType =>
      simp only [hfi] at h
      cases htt : to_.Typ p with
      | error e => simp [htt] at h
      | ok tt =>
        simp only [htt] at h
        cases hti : indirectType fuel p tt with
        | error e => simp [hti] at h
        | ok toType =>
          simp only [hti] at h
          cases htf : tt.Field p 0 with
          | error e => simp [htf] at h
          | ok tf =>
            simp only [htf, bind_apply, setJsonTagTo, bind_liftR] at h
            cases hff : ft.Field p 0 with
            | error e => simp [hff, liftR] at h
            | ok ff =>
              have hkf := GoType.Field_ok_kind p ft 0 ff hff
              have hkt := GoType.Field_ok_kind p tt 0 tf htf
              have e1 := indirectType_struct_ok fuel p ft fromType hkf hfi
              have e2 := indirectType_struct_ok fuel p tt toType hkt hti
              subst e1 e2
              have hks : to_.Kind p = .Struct := by rw [Value.Typ_kind p to_ _ htt, hkt]
              simp only [hff, setJsonTagFrom, getState, hkf, hkt, hks, amountOf, pure_apply] at h
              simp at h
              exact ⟨_, _, ff, tf, rfl, rfl, hff, htf, h⟩

theorem copyValid_keeps (fuel : Nat) (p : Program)
    (copy : Iface → Iface → Exec (Option String))
    (hcopy : ∀ a b s r s', copy a b s = .ok r s' → Keeps s s')
    (to_ from_ : Value) (st st' : State) (r : Option String)
    (h : copyValid fuel p copy to_ from_ st = .ok r st') : Keeps st st' := by
  obtain ⟨ft, tt, ff, tf, _, _, _, _, hl⟩ := copyValid_ok fuel p copy to_ from_ st st' r h
  have k := copyLoop_keeps fuel p copy hcopy from_ to_ ft tt 1 0 _ st' r hl
  exact ⟨k.1, k.2⟩

/-- A call of `Copy` that returns leaves the store as it was and only appends
to the log of `set` results. -/
theorem Copy_keeps (fuel : Nat) (p : Program) (toValue fromValue : Iface) (st st' : State)
    (r : Option String) (h : Copy fuel p toValue fromValue st = .ok r st') : Keeps st st' := by
  induction fuel generalizing toValue fromValue st st' r with
  | zero => simp [Copy] at h
  | succ n ih =>
    simp only [Copy, bind_readHeap] at h
    split at h
    · split at h
      · split at h
        · rw [pure_ok_iff] at h
          rw [← h.2]
          exact Keeps.refl st
        · split at h
          · rw [pure_ok_iff] at h
            rw [← h.2]
            exact Keeps.refl st
          · exact copyValid_keeps (n + 1) p (Copy n p)
              (fun a b s r s' hh => ih a b s s' r hh) _ _ st st' r h
      · simp at h
    · simp at h

/-! ## Claims about Copy -/

theorem indirect_cyclic (fuel : Nat) :
    indirect fuel cyclicProgram cyclicState.heap
      (.mk (.named 0) (.addr ⟨0, []⟩) false false none) = .error .timeout := by
  induction fuel with
  | zero => rfl
  | succ n ih =>
    have hk : (Value.mk (.named 0) (.addr ⟨0, []⟩) false false none).Kind cyclicProgram
        = .Ptr := rfl
    have he : (Value.mk (.named 0) (.addr ⟨0, []⟩) false false none).Elem cyclicProgram
        cyclicState.heap = .ok (.mk (.named 0) (.addr ⟨0, []⟩) false false none) := rfl
    simp only [indirect, hk, he, beq_self_eq_true, if_true]
    exact ih

/-- C4 (counterexample): with `type P *P` and `p = &p`, the call `Copy(nil, p)`
has a destination that is not addressable (the nil interface unwraps to the
zero Value), yet it returns nothing: `indirect` never finishes unwrapping the
source, whatever the fuel. -/
theorem Copy_cyclic_source_never_returns :
    indirect 1 cyclicProgram cyclicState.heap (ValueOf none) = .ok .zero ∧
    Value.zero.CanAddr = false ∧
    ∀ fuel, Copy fuel cyclicProgram none cyclicFrom cyclicState =
      .fail .timeout cyclicState := by
  refine ⟨rfl, rfl, ?_⟩
  intro fuel
  cases fuel with
  | zero => rfl
  | succ n =>
    have hk : (ValueOf cyclicFrom).Kind cyclicProgram = .Ptr := rfl
    have he : (ValueOf cyclicFrom).Elem cyclicProgram cyclicState.heap =
        .ok (.mk (.named 0) (.addr ⟨0, []⟩) false false none) := rfl
    simp only [Copy, bind_readHeap, indirect, hk, he, beq_self_eq_true, if_true,
      indirect_cyclic n]

/-- C4 (amended): whenever unwrapping the source ends and the unwrapped
destination is not addressable, `Copy` returns the error "copy to value is
unaddressable" in an unchanged state: nothing is written to the store and the
package-level tags keep their values.  The check precedes the test for an
absent source, since `from_` is arbitrary. -/
theorem Copy_unaddressable_destination (fuel : Nat) (p : Program)
    (toValue fromValue : Iface) (st : State) (to_ from_ : Value)
    (hfrom : indirect fuel p st.heap (ValueOf fromValue) = .ok from_)
    (hto : indirect fuel p st.heap (ValueOf toValue) = .ok to_)
    (hna : to_.CanAddr = false) :
    Copy fuel p toValue fromValue st = .ok (some "copy to value is unaddressable") st := by
  cases fuel with
  | zero => simp [indirect] at hfrom
  | succ n =>
    simp only [Copy, bind_readHeap, hfrom, hto, hna, Bool.not_false, if_true, pure_apply]

/-- C4 (witness): a `D` passed by value and the source `S{A: 7}`. -/
theorem Copy_unaddressable_destination_witness :
    Copy 5 convProgram (some (.named 1, .struct [.int 0])) convFrom convState =
      .ok (some "copy to value is unaddressable") convState :=
  Copy_unaddressable_destination 5 convProgram (some (.named 1, .struct [.int 0])) convFrom
    convState (ValueOf (some (.named 1, .struct [.int 0]))) (ValueOf convFrom) rfl rfl rfl

/-- C5: when the unwrapped destination is addressable and the source is absent
(it unwraps to the zero Value: the nil interface, a nil pointer, a chain of
pointers ending in nil), `Copy` returns nil in an unchanged state. -/
theorem Copy_absent_source (fuel : Nat) (p : Program) (toValue fromValue : Iface)
    (st : State) (to_ : Value)
    (hfrom : indirect fuel p st.heap (ValueOf fromValue) = .ok .zero)
    (hto : indirect fuel p st.heap (ValueOf toValue) = .ok to_)
    (hca : to_.CanAddr = true) :
    Copy fuel p toValue fromValue st = .ok none st := by
  cases fuel with
  | zero => simp [indirect] at hfrom
  | succ n =>
    simp only [Copy, bind_readHeap, hfrom, hto, hca, Bool.not_true, Bool.false_eq_true,
      if_false, Value.IsValid, Bool.not_false, if_true, pure_apply]

/-- C5 (witness): `&d` and a nil `*S`. -/
theorem Copy_absent_source_witness :
    Copy 5 convProgram convTo (some (.ptr (.named 0), .nil)) convState =
      .ok none convState :=
  Copy_absent_source 5 convProgram convTo (some (.ptr (.named 0), .nil)) convState
    (.mk (.named 1) (.addr ⟨0, []⟩) false false none) rfl rfl rfl

/-- C3: after a call of `Copy` that returns, a field `g` of the destination
whose json tag no field of the source type carries holds the value it held
before, whatever the Go names of the source fields.  (No accessor method is
ever matched, and the tag hypothesis is not even needed: `Copy` writes only
through fields it looks up on the source.) -/
theorem Copy_keeps_unmatched_destination_field (fuel : Nat) (p : Program)
    (toValue fromValue : Iface) (st st' : State) (r : Option String)
    (h : Copy fuel p toValue fromValue st = .ok r st')
    (to_ gv : Value) (tt : GoType) (i : Nat) (g : StructField)
    (_hto : indirect fuel p st.heap (ValueOf toValue) = .ok to_)
    (_htt : to_.Typ p = .ok tt) (_hg : tt.Field p i = .ok g)
    (_hgv : to_.Field p i = .ok gv)
    (_hnotag : ∀ from_ ft fs, indirect fuel p st.heap (ValueOf fromValue) = .ok from_ →
      from_.Typ p = .ok ft → deepFields fuel p ft = .ok fs → ∀ f ∈ fs, f.Tag ≠ g.Tag) :
    gv.load st'.heap = gv.load st.heap := by
  rw [(Copy_keeps fuel p toValue fromValue st st' r h).1]

/-- C3 (witness): `Copy(&d, &s)` on the types of `gateProgram` returns; field
`A` of `d` (tag `d`) has the Go name of field `A` of `s` (tag `s`) and keeps
its value. -/
theorem Copy_keeps_unmatched_destination_field_witness :
    Copy 5 gateProgram gateTo gateFrom gateState =
      .ok none ⟨gateState.heap, "", "", [false, true]⟩ ∧
    (Value.mk (.named 1) (.addr ⟨0, [0]⟩) false false none).load
        (⟨gateState.heap, "", "", [false, true]⟩ : State).heap =
      (Value.mk (.named 1) (.addr ⟨0, [0]⟩) false false none).load gateState.heap :=
  ⟨rfl, Copy_keeps_unmatched_destination_field 5 gateProgram gateTo gateFrom gateState
    ⟨gateState.heap, "", "", [false, true]⟩ none rfl
    (.mk (.named 3) (.addr ⟨0, []⟩) false false none)
    (.mk (.named 1) (.addr ⟨0, [0]⟩) false false none) (.named 3) 0
    ⟨"A", "d", false, "", .named 1⟩ rfl rfl rfl rfl
    (by
      intro from_ ft fs h1 h2 h3 f hf
      have e1 : from_ = .mk (.named 2) (.addr ⟨1, []⟩) false false none := by
        have : indirect 5 gateProgram gateState.heap (ValueOf gateFrom) =
            .ok (.mk (.named 2) (.addr ⟨1, []⟩) false false none) := rfl
        rw [this] at h1
        exact (Except.ok.inj h1).symm
      subst e1
      have e2 : ft = .named 2 := (Except.ok.inj h2).symm
      subst e2
      have e3 : fs = [⟨"A", "s", false, "", .named 1⟩, ⟨"B", "b", false, "", .named 1⟩] := by
        have : deepFields 5 gateProgram (.named 2) =
            .ok [⟨"A", "s", false, "", .named 1⟩, ⟨"B", "b", false, "", .named 1⟩] := rfl
        rw [this] at h3
        exact (Except.ok.inj h3).symm
      subst e3
      simp at hf
      rcases hf with rfl | rfl <;> decide)⟩

/-- C6: a call of `Copy` that returns leaves the source as it was: the value
the unwrapped source holds, and the content of every location of the store,
are the same after the call as before it.  This includes a source passed by
pointer (so that its fields are settable) and both positions of the gate. -/
theorem Copy_source_unchanged (fuel : Nat) (p : Program) (toValue fromValue : Iface)
    (st st' : State) (r : Option String)
    (h : Copy fuel p toValue fromValue st = .ok r st') (from_ : Value)
    (_hfrom : indirect fuel p st.heap (ValueOf fromValue) = .ok from_) :
    from_.load st'.heap = from_.load st.heap ∧
      ∀ l : Loc, st'.heap.read l = st.heap.read l := by
  rw [(Copy_keeps fuel p toValue fromValue st st' r h).1]
  exact ⟨rfl, fun _ => rfl⟩

/-- C6 (witness): `Copy(&d, &s)` on the types of `gateProgram`, where `set`
is reached with the gate closed and then with the gate open. -/
theorem Copy_source_unchanged_witness :
    (Value.mk (.named 2) (.addr ⟨1, []⟩) false false none).load
        (Copy 5 gateProgram gateTo gateFrom gateState).state.heap =
      .ok (.struct [.struct [.struct []], .struct [.struct []]]) :=
  (Copy_source_unchanged 5 gateProgram gateTo gateFrom gateState
    ⟨gateState.heap, "", "", [false, true]⟩ none rfl
    (.mk (.named 2) (.addr ⟨1, []⟩) false false none) rfl).1

/-- C7 (counterexample): in `Copy(&d, &s)` on the types of `gateProgram` the
first fields of `D` and `S` carry the tags `d` and `s`.  The first call of
`set` declines; the recursive `Copy` that follows records the tags of the
field type on both sides, and the next call of `set`, made by the outer loop,
returns true after assigning. -/
theorem Copy_gate_reopened_by_nested_call :
    (GoType.named 3).Field gateProgram 0 = .ok ⟨"A", "d", false, "", .named 1⟩ ∧
    (GoType.named 2).Field gateProgram 0 = .ok ⟨"A", "s", false, "", .named 1⟩ ∧
    Copy 5 gateProgram gateTo gateFrom gateState =
      .ok none ⟨gateState.heap, "", "", [false, true]⟩ :=
  ⟨rfl, rfl, rfl⟩

/-- C8 (defect exhibited): copying the slice `[]S{{A: 1}, {A: 2}}` into the
empty `[]D` behind `&dst` does not return.  `Copy` panics at line 34, where it
asks the slice type `[]D` for its first field, before the slice mode is
reached; nothing has been recorded or appended. -/
theorem Copy_slice_panics :
    Copy 5 convProgram sliceTo sliceFrom sliceState =
      .fail (.panic "reflect: Field of non-struct type") sliceState := rfl

/-- C9 (defect exhibited): `Copy(&d, 5)` for an `int` variable `d` does not
return.  `Copy` panics at line 34, where it asks the type `int` for its first
field, before the direct assignment of line 38; `d` still holds 0. -/
theorem Copy_scalar_panics :
    Copy 5 convProgram scalarTo scalarFromInt scalarState =
      .fail (.panic "reflect: Field of non-struct type") scalarState := rfl

/-- C10 (defect exhibited): `Copy(&d, "x")` for an `int` variable `d` does not
return.  `Copy` panics at line 34, where it asks the type `int` for its first
field, before the early return of line 43. -/
theorem Copy_mismatch_panics :
    Copy 5 convProgram scalarTo scalarFromString scalarState =
      .fail (.panic "reflect: Field of non-struct type") scalarState := rfl

/-! ## Further claims about Copy -/

/-- C11: a call of `Copy` that returns, with nil or with an error, leaves the
destination as it was: the unwrapped destination holds the same value, and the
whole store is unchanged.  When the call got past the two early returns, the
unwrapped destination and source are both of kind `Struct`, so that the direct
assignment (which needs a non-struct source) and the slice mode (which needs a
destination of kind `Slice`) were not reached. -/
theorem Copy_destination_unchanged (fuel : Nat) (p : Program) (toValue fromValue : Iface)
    (st st' : State) (r : Option String)
    (h : Copy fuel p toValue fromValue st = .ok r st') (to_ from_ : Value)
    (hto : indirect fuel p st.heap (ValueOf toValue) = .ok to_)
    (hfrom : indirect fuel p st.heap (ValueOf fromValue) = .ok from_) :
    to_.load st'.heap = to_.load st.heap ∧ st'.heap = st.heap ∧
      (to_.CanAddr = true → from_.IsValid = true →
        to_.Kind p = .Struct ∧ from_.Kind p = .Struct) := by
  have hk := (Copy_keeps fuel p toValue fromValue st st' r h).1
  refine ⟨by rw [hk], hk, ?_⟩
  intro hca hv
  cases fuel with
  | zero => simp [Copy] at h
  | succ n =>
    simp only [Copy, bind_readHeap, hfrom, hto, hca, hv, Bool.not_true, Bool.false_eq_true,
      if_false] at h
    obtain ⟨ft, tt, ff, tf, h1, h2, h3, h4, _⟩ :=
      copyValid_ok (n + 1) p (Copy n p) to_ from_ st st' r h
    rw [Value.Typ_kind p to_ tt h2, Value.Typ_kind p from_ ft h1]
    exact ⟨GoType.Field_ok_kind p tt 0 tf h4, GoType.Field_ok_kind p ft 0 ff h3⟩

/-- C11 (witness): `Copy(&d, &s)` on the types of `gateProgram`. -/
theorem Copy_destination_unchanged_witness :
    (Value.mk (.named 3) (.addr ⟨0, []⟩) false false none).load
        (Copy 5 gateProgram gateTo gateFrom gateState).state.heap =
      .ok (.struct [.struct [.struct []]]) :=
  (Copy_destination_unchanged 5 gateProgram gateTo gateFrom gateState
    ⟨gateState.heap, "", "", [false, true]⟩ none rfl
    (.mk (.named 3) (.addr ⟨0, []⟩) false false none)
    (.mk (.named 2) (.addr ⟨1, []⟩) false false none) rfl rfl).1

/-! ## The returned error -/

theorem indirect_ptr_to_struct (fuel : Nat) (p : Program) (h : Heap) (t : GoType) (l : Loc)
    (v : Value) (hk : t.Kind p = .Struct)
    (hv : indirect fuel p h (.mk (.ptr t) (.imm (.ptr l)) false false none) = .ok v) :
    v = .mk t (.addr l) false false none := by
  cases fuel with
  | zero => simp [indirect] at hv
  | succ n =>
    have hkp : (Value.mk (.ptr t) (.imm (.ptr l)) false false none).Kind p = .Ptr := rfl
    have he : (Value.mk (.ptr t) (.imm (.ptr l)) false false none).Elem p h =
        .ok (.mk t (.addr l) false false none) := by
      simp [Value.Elem, Value.Kind, GoType.Kind, GoType.underlying, Underlying.kind,
        Value.load, GoType.Elem]
    simp only [indirect, hkp, he, beq_self_eq_true, if_true] at hv
    cases n with
    | zero => simp [indirect] at hv
    | succ m =>
      have hns : (Value.mk t (.addr l) false false none).Kind p ≠ .Ptr := by
        simp [Value.Kind, hk]
      rw [indirect_of_not_ptr m p h _ hns] at hv
      exact (Except.ok.inj hv).symm

theorem Copy_ok_indirect (fuel : Nat) (p : Program) (toValue fromValue : Iface)
    (st st' : State) (r : Option String)
    (h : Copy fuel p toValue fromValue st = .ok r st') :
    ∃ to_ from_, indirect fuel p st.heap (ValueOf toValue) = .ok to_ ∧
      indirect fuel p st.heap (ValueOf fromValue) = .ok from_ := by
  cases fuel with
  | zero => simp [Copy] at h
  | succ n =>
    simp only [Copy, bind_readHeap] at h
    cases hf : indirect (n + 1) p st.heap (ValueOf fromValue) with
    | error e => simp [hf] at h
    | ok from_ =>
      cases ht : indirect (n + 1) p st.heap (ValueOf toValue) with
      | error e => simp [hf, ht] at h
      | ok to_ => exact ⟨to_, from_, rfl, rfl⟩

theorem setOrCopy_none (fuel : Nat) (p : Program)
    (copy : Iface → Iface → Exec (Option String))
    (hcopy : ∀ t l b s r s', t.Kind p = .Struct →
      copy (some (.ptr t, .ptr l)) b s = .ok r s' → r = none)
    (source v : Value) (hv : IsScannedField p source v) (st st' : State) (r : Option String)
    (h : setOrCopy fuel p copy v v st = .ok r st') : r = none := by
  unfold setOrCopy at h
  split at h
  · rename_i hc
    obtain ⟨t, d, s, e, hshape, hk⟩ := IsScannedField.shape p source v hv
    obtain ⟨l, rfl⟩ := canSet_shape v t d s e hshape hc
    rw [bind_ok_iff] at h
    obtain ⟨b, s1, h1, h2⟩ := h
    split at h2
    · simp only [bind_liftR, bind_readHeap, Value.Addr, Value.Interface, Bool.or_self,
        Bool.false_eq_true, if_false, Value.load] at h2
      split at h2
      · rename_i toArg hto
        have hta : toArg = some (.ptr t, .ptr l) := by
          simp [GoType.Kind, GoType.underlying, Underlying.kind] at hto
          exact hto.symm
        subst hta
        split at h2
        · exact hcopy t l _ _ _ _ hk h2
        · simp at h2
      · simp at h2
    · rw [pure_ok_iff] at h2
      exact h2.1.symm
  · rw [pure_ok_iff] at h
    exact h.1.symm

theorem fieldStep_none (fuel : Nat) (p : Program)
    (copy : Iface → Iface → Exec (Option String))
    (hcopy : ∀ t l b s r s', t.Kind p = .Struct →
      copy (some (.ptr t, .ptr l)) b s = .ok r s' → r = none)
    (source dest : Value) (field : StructField) (st st' : State) (r : Option String)
    (h : fieldStep fuel p copy source dest field st = .ok r st') : r = none := by
  unfold fieldStep at h
  simp only [bind_liftR] at h
  cases hf : fieldByJSONTag fuel p source field.Tag with
  | error e => simp [hf] at h
  | ok v =>
    simp only [hf] at h
    split at h
    · rename_i hvalid
      rcases fieldByJSONTag_ok fuel p source field.Tag v hf with hz | hs
      · subst hz
        simp [Value.IsValid] at hvalid
      · simp only [bind_liftR, hvalid, if_true] at h
        exact setOrCopy_none fuel p copy hcopy source v hs st st' r h
    · rw [pure_ok_iff] at h
      exact h.1.symm

theorem fieldPass_none (fuel : Nat) (p : Program)
    (copy : Iface → Iface → Exec (Option String))
    (hcopy : ∀ t l b s r s', t.Kind p = .Struct →
      copy (some (.ptr t, .ptr l)) b s = .ok r s' → r = none)
    (source dest : Value) (fields : List StructField) (st st' : State) (r : Option String)
    (h : fieldPass fuel p copy source dest fields st = .ok r st') : r = none := by
  induction fields generalizing st with
  | nil =>
    simp only [fieldPass] at h
    rw [pure_ok_iff] at h
    exact h.1.symm
  | cons field rest ih =>
    simp only [fieldPass] at h
    rw [bind_ok_iff] at h
    obtain ⟨r1, s1, h1, h2⟩ := h
    have := fieldStep_none fuel p copy hcopy source dest field st s1 r1 h1
    subst this
    exact ih s1 h2

theorem copyLoop_one_none (fuel : Nat) (p : Program)
    (copy : Iface → Iface → Exec (Option String))
    (hcopy : ∀ t l b s r s', t.Kind p = .Struct →
      copy (some (.ptr t, .ptr l)) b s = .ok r s' → r = none)
    (from_ to_ : Value) (fromType toType : GoType) (st st' : State) (r : Option String)
    (h : copyLoop fuel p copy false from_ to_ fromType toType 1 0 st = .ok r st') :
    r = none := by
  simp only [copyLoop] at h
  rw [bind_ok_iff] at h
  obtain ⟨r0, s0, h0, h5⟩ := h
  have hr0 : r0 = none := by
    unfold copyElem at h0
    rw [bind_ok_iff] at h0
    obtain ⟨sd, s1, h1, h2⟩ := h0
    rw [bind_ok_iff] at h2
    obtain ⟨r1, s2, h3, h4⟩ := h2
    have hr1 : r1 = none := by
      unfold bothPasses at h3
      split at h3
      · rw [bind_liftR] at h3
        split at h3
        · rw [bind_ok_iff] at h3
          obtain ⟨r2, s3, h6, h7⟩ := h3
          have := fieldPass_none fuel p copy hcopy _ _ _ _ _ _ h6
          subst this
          simp only [bind_liftR] at h7
          split at h7
          · rw [bind_ok_iff] at h7
            obtain ⟨u, s4, _, h9⟩ := h7
            rw [pure_ok_iff] at h9
            exact h9.1.symm
          · simp at h7
        · simp at h3
      · rw [pure_ok_iff] at h3
        exact h3.1.symm
    subst hr1
    simp only [Bool.false_eq_true, if_false] at h4
    rw [pure_ok_iff] at h4
    exact h4.1.symm
  subst hr0
  simp only [] at h5
  rw [pure_ok_iff] at h5
  exact h5.1.symm

/-- A call of `Copy` that returns gives the error for an unaddressable
destination when the unwrapped destination is not addressable, and nil
otherwise. -/
theorem Copy_result (fuel : Nat) (p : Program) (toValue fromValue : Iface)
    (st st' : State) (r : Option String)
    (h : Copy fuel p toValue fromValue st = .ok r st') (to_ : Value)
    (hto : indirect fuel p st.heap (ValueOf toValue) = .ok to_) :
    (to_.CanAddr = false ∧ r = some "copy to value is unaddressable") ∨
      (to_.CanAddr = true ∧ r = none) := by
  induction fuel generalizing toValue fromValue st st' r to_ with
  | zero => simp [Copy] at h
  | succ n ih =>
    obtain ⟨to', from_, hto', hfrom⟩ := Copy_ok_indirect (n + 1) p toValue fromValue st st' r h
    rw [hto] at hto'
    cases hto'
    simp only [Copy, bind_readHeap, hfrom, hto] at h
    split at h
    · rename_i hc
      rw [pure_ok_iff] at h
      simp at hc
      exact Or.inl ⟨hc, h.1.symm⟩
    · rename_i hc
      simp at hc
      split at h
      · rw [pure_ok_iff] at h
        exact Or.inr ⟨hc, h.1.symm⟩
      · obtain ⟨ft, tt, ff, tf, _, _, _, _, hl⟩ :=
          copyValid_ok (n + 1) p (Copy n p) to_ from_ st st' r h
        refine Or.inr ⟨hc, copyLoop_one_none (n + 1) p (Copy n p) ?_ from_ to_ ft tt _ st' r hl⟩
        intro t l b s r2 s2 hk hh
        obtain ⟨to2, _, hto2, _⟩ := Copy_ok_indirect n p _ b s s2 r2 hh
        have e := indirect_ptr_to_struct n p s.heap t l to2 hk hto2
        subst e
        rcases ih _ b s s2 r2 hh _ hto2 with ⟨hca, _⟩ | ⟨_, hr⟩
        · simp [Value.CanAddr] at hca
        · exact hr

/-- C13: among the calls of `Copy` that return, the returned error is non-nil
exactly when the unwrapped destination is not addressable (and it is then the
error of line 24).  In particular a recursive call, whose destination is a
pointer to a field of struct kind, returns nil whenever it returns, so the
error propagation of line 86 never fires. -/
theorem Copy_error_iff_unaddressable (fuel : Nat) (p : Program) (toValue fromValue : Iface)
    (st st' : State) (r : Option String)
    (h : Copy fuel p toValue fromValue st = .ok r st') (to_ : Value)
    (hto : indirect fuel p st.heap (ValueOf toValue) = .ok to_) :
    (r ≠ none ↔ to_.CanAddr = false) ∧
      (r ≠ none → r = some "copy to value is unaddressable") ∧
      (∀ (t : GoType) (l : Loc) (b : Iface) (s s2 : State) (r2 : Option String),
        t.Kind p = .Struct →
        Copy fuel p (some (.ptr t, .ptr l)) b s = .ok r2 s2 → r2 = none) := by
  refine ⟨?_, ?_, ?_⟩
  · rcases Copy_result fuel p toValue fromValue st st' r h to_ hto with ⟨hc, hr⟩ | ⟨hc, hr⟩
    · simp [hc, hr]
    · simp [hc, hr]
  · rcases Copy_result fuel p toValue fromValue st st' r h to_ hto with ⟨hc, hr⟩ | ⟨hc, hr⟩
    · intro _; exact hr
    · intro hn; exact absurd hr hn
  · intro t l b s s2 r2 hk hh
    obtain ⟨to2, _, hto2, _⟩ := Copy_ok_indirect fuel p _ b s s2 r2 hh
    have e := indirect_ptr_to_struct fuel p s.heap t l to2 hk hto2
    subst e
    rcases Copy_result fuel p _ b s s2 r2 hh _ hto2 with ⟨hca, _⟩ | ⟨_, hr⟩
    · simp [Value.CanAddr] at hca
    · exact hr

/-- C13 (witness): `Copy(&d, &s)` on the types of `gateProgram` returns nil, and
its destination is addressable. -/
theorem Copy_error_iff_unaddressable_witness :
    ((none : Option String) ≠ none ↔
      (Value.mk (.named 3) (.addr ⟨0, []⟩) false false none).CanAddr = false) :=
  (Copy_error_iff_unaddressable 5 gateProgram gateTo gateFrom gateState
    ⟨gateState.heap, "", "", [false, true]⟩ none rfl
    (.mk (.named 3) (.addr ⟨0, []⟩) false false none) rfl).1

/-! ## Independence of the initial tags -/

theorem Outcome.agree_refl {α : Type} (o : Outcome α) : o.agree o := by
  cases o <;> simp [Outcome.agree]

theorem copyValid_agree (fuel : Nat) (p : Program)
    (copy : Iface → Iface → Exec (Option String)) (to_ from_ : Value) (st : State)
    (a b : String) :
    (copyValid fuel p copy to_ from_ st).agree
      (copyValid fuel p copy to_ from_ { st with jsonTagTo := a, jsonTagFrom := b }) := by
  unfold copyValid
  simp only [bind_liftR]
  cases hft : from_.Typ p with
  | error e => simp [Outcome.agree]
  | ok ft =>
    simp only []
    cases hfi : indirectType fuel p ft with
    | error e => simp [Outcome.agree]
    | ok fromType =>
      simp only []
      cases htt : to_.Typ p with
      | error e => simp [Outcome.agree]
      | ok tt =>
        simp only []
        cases hti : indirectType fuel p tt with
        | error e => simp [Outcome.agree]
        | ok toType =>
          simp only []
          cases htf : tt.Field p 0 with
          | error e => simp [Outcome.agree]
          | ok tf =>
            simp only [bind_apply, setJsonTagTo, bind_liftR]
            cases hff : ft.Field p 0 with
            | error e => simp [Outcome.agree, liftR]
            | ok ff =>
              simp only [liftR, setJsonTagFrom]
              exact Outcome.agree_refl _

/-- C18: the outcome of `Copy` does not depend on the initial values of
`jsonTagTo` and `jsonTagFrom`.  Started in states that differ only in these two
variables, the two runs both return, with the same error value, or both fail
with the same fault (the same panic, or both without end), and they end with
the same store, hence the same destination and source. -/
theorem Copy_independent_of_initial_tags (fuel : Nat) (p : Program)
    (toValue fromValue : Iface) (st : State) (a b : String) :
    (Copy fuel p toValue fromValue st).agree
      (Copy fuel p toValue fromValue { st with jsonTagTo := a, jsonTagFrom := b }) := by
  cases fuel with
  | zero => simp [Copy, Outcome.agree]
  | succ n =>
    simp only [Copy, bind_readHeap]
    cases hf : indirect (n + 1) p st.heap (ValueOf fromValue) with
    | error e => simp [Outcome.agree]
    | ok from_ =>
      simp only []
      cases ht : indirect (n + 1) p st.heap (ValueOf toValue) with
      | error e => simp [Outcome.agree]
      | ok to_ =>
        simp only []
        split
        · simp [Outcome.agree, pure_apply]
        · split
          · simp [Outcome.agree, pure_apply]
          · exact copyValid_agree (n + 1) p (Copy n p) to_ from_ st a b

/-! ## The first-field tag lookup -/

theorem GoType.Field_zero_ok_iff (p : Program) (t : GoType) :
    (∃ f, t.Field p 0 = .ok f) ↔ IsNonEmptyStruct p t := by
  unfold GoType.Field IsNonEmptyStruct
  cases hu : t.underlying p with
  | struct fs =>
    cases fs with
    | nil => simp [throwPanic]
    | cons f rest => simp
  | _ => simp [throwPanic]

theorem GoType.Field_zero_panics (p : Program) (t : GoType) (h : ¬ IsNonEmptyStruct p t) :
    t.Field p 0 = throwPanic "reflect: Field of non-struct type" ∨
      t.Field p 0 = throwPanic "reflect: Field index out of bounds" := by
  unfold GoType.Field
  unfold IsNonEmptyStruct at h
  cases hu : t.underlying p with
  | struct fs =>
    cases fs with
    | nil => simp
    | cons f rest => exact absurd ⟨f, rest, hu⟩ h
  | _ => simp

theorem indirectType_tree (fuel : Nat) :
    indirectType fuel treeProgram (.named 0) = .error .timeout := by
  induction fuel with
  | zero => rfl
  | succ n ih =>
    have hk : (GoType.named 0).Kind treeProgram = .Slice := rfl
    have he : (GoType.named 0).Elem treeProgram = .ok (.named 0) := rfl
    simp only [indirectType, hk, he]
    simpa using ih

/-- C12 (counterexample): with `type Tree []Tree`, an `int` variable `d` and
the source `Tree{}`, the call `Copy(&d, Tree{})` has an addressable unwrapped
destination and a valid source, neither of struct type, and it neither returns
nor panics: `indirectType` at line 31 never finishes stripping the slice
layers of `Tree`, whatever the fuel. -/
theorem Copy_recursive_slice_never_panics :
    indirect 2 treeProgram treeState.heap (ValueOf scalarTo) =
      .ok (.mk (.basic .int) (.addr ⟨0, []⟩) false false none) ∧
    indirect 2 treeProgram treeState.heap (ValueOf treeFrom) = .ok (ValueOf treeFrom) ∧
    (ValueOf treeFrom).IsValid = true ∧
    (ValueOf treeFrom).Kind treeProgram = .Slice ∧
    ∀ fuel, Copy fuel treeProgram scalarTo treeFrom treeState = .fail .timeout treeState := by
  refine ⟨rfl, rfl, rfl, rfl, ?_⟩
  intro fuel
  cases fuel with
  | zero => rfl
  | succ n =>
    cases n with
    | zero => rfl
    | succ m =>
      have hfrom : indirect (m + 2) treeProgram treeState.heap (ValueOf treeFrom) =
          .ok (ValueOf treeFrom) :=
        indirect_of_not_ptr (m + 1) treeProgram treeState.heap _ (by decide)
      have hk : (ValueOf scalarTo).Kind treeProgram = .Ptr := rfl
      have he : (ValueOf scalarTo).Elem treeProgram treeState.heap =
          .ok (.mk (.basic .int) (.addr ⟨0, []⟩) false false none) := rfl
      have hto : indirect (m + 2) treeProgram treeState.heap (ValueOf scalarTo) =
          .ok (.mk (.basic .int) (.addr ⟨0, []⟩) false false none) := by
        simp only [indirect, hk, he, beq_self_eq_true, if_true]
        exact indirect_of_not_ptr m treeProgram treeState.heap _ (by decide)
      have hft : (ValueOf treeFrom).Typ treeProgram = .ok (.named 0) := rfl
      have hca : (Value.mk (.basic .int) (.addr ⟨0, []⟩) false false none).CanAddr = true :=
        rfl
      have hv : (ValueOf treeFrom).IsValid = true := rfl
      simp only [Copy, bind_readHeap, hfrom, hto]
      simp only [hca, hv, Bool.not_true, Bool.false_eq_true, if_false, copyValid, bind_liftR,
        hft, indirectType_tree]

/-- C12 (amended): when the unwrapped destination is addressable, the source is
valid, the pointer and slice layers of both their types can be stripped, and
one of the two types is not a struct with at least one field, `Copy` does not
return: it panics at the first-field tag lookup of lines 34-35, with the store
unchanged. -/
theorem Copy_panics_at_tag_lookup (fuel : Nat) (p : Program) (toValue fromValue : Iface)
    (st : State) (to_ from_ : Value) (tt ft toType fromType : GoType)
    (hto : indirect fuel p st.heap (ValueOf toValue) = .ok to_)
    (hfrom : indirect fuel p st.heap (ValueOf fromValue) = .ok from_)
    (hca : to_.CanAddr = true) (hv : from_.IsValid = true)
    (htt : to_.Typ p = .ok tt) (hft : from_.Typ p = .ok ft)
    (hti : indirectType fuel p tt = .ok toType)
    (hfi : indirectType fuel p ft = .ok fromType)
    (hns : ¬ IsNonEmptyStruct p tt ∨ ¬ IsNonEmptyStruct p ft) :
    ∃ msg s, Copy fuel p toValue fromValue st = .fail (.panic msg) s ∧ s.heap = st.heap ∧
      (msg = "reflect: Field of non-struct type" ∨
        msg = "reflect: Field index out of bounds") := by
  cases fuel with
  | zero => simp [indirect] at hto
  | succ n =>
    simp only [Copy, bind_readHeap, hfrom, hto, hca, hv, Bool.not_true, Bool.false_eq_true,
      if_false, copyValid, bind_liftR, htt, hft, hti, hfi]
    by_cases hst : IsNonEmptyStruct p tt
    · obtain ⟨tf, htf⟩ := (GoType.Field_zero_ok_iff p tt).mpr hst
      have hnf : ¬ IsNonEmptyStruct p ft := by
        rcases hns with h | h
        · exact absurd hst h
        · exact h
      simp only [htf, bind_apply, setJsonTagTo, bind_liftR]
      rcases GoType.Field_zero_panics p ft hnf with h | h
      · exact ⟨_, { st with jsonTagTo := tf.Tag }, by rw [h]; rfl, rfl, Or.inl rfl⟩
      · exact ⟨_, { st with jsonTagTo := tf.Tag }, by rw [h]; rfl, rfl, Or.inr rfl⟩
    · rcases GoType.Field_zero_panics p tt hst with h | h
      · exact ⟨_, st, by rw [h]; rfl, rfl, Or.inl rfl⟩
      · exact ⟨_, st, by rw [h]; rfl, rfl, Or.inr rfl⟩

/-- C12 (witness): `Copy(&d, 5)` for an `int` variable `d`. -/
theorem Copy_panics_at_tag_lookup_witness :
    ∃ msg s, Copy 5 convProgram scalarTo scalarFromInt scalarState = .fail (.panic msg) s ∧
      s.heap = scalarState.heap ∧
      (msg = "reflect: Field of non-struct type" ∨
        msg = "reflect: Field index out of bounds") :=
  Copy_panics_at_tag_lookup 5 convProgram scalarTo scalarFromInt scalarState
    (.mk (.basic .int) (.addr ⟨0, []⟩) false false none) (ValueOf scalarFromInt)
    (.basic .int) (.basic .int) (.basic .int) (.basic .int) rfl rfl rfl rfl rfl rfl rfl rfl
    (Or.inl (by
      rintro ⟨f, fs, h⟩
      simp [GoType.underlying] at h))

/-! ## Claims about fieldByJSONTag -/

/-- C14 (defect exhibited): on the witness of the claim, a value of type
`T = {ID int "json:id"; Name string "json:name"}` and the tag `name`,
`fieldByJSONTag` does not return the field `Name`: it panics on field `ID`,
whose type `int` it asks for a first field.  The tag `name` is declared on
field 1 of `T`. -/
theorem fieldByJSONTag_declared_tag_panics :
    (GoType.named 0).Field identProgram 1 =
      .ok ⟨"Name", "name", false, "", .basic .string⟩ ∧
    fieldByJSONTag 5 identProgram
        (.mk (.named 0) (.imm (.struct [.int 1, .str "a"])) false false none) "name" =
      .error (.panic "reflect: Field of non-struct type") :=
  ⟨rfl, rfl⟩

/-- C15 (defect exhibited): for `s` of type
`S = {A F "json:s"; B F "json:b"}` and the tag `zzz`, which no field of `S`
carries, `fieldByJSONTag` returns the valid field `B` (the last one it
scanned), not the zero Value; and for the tag of the untagged first field of
`F` (the empty string) it returns field `A`, which carries `s`. -/
theorem fieldByJSONTag_missing_tag_returns_field :
    (GoType.named 2).underlying gateProgram =
      .struct [⟨"A", "s", false, "", .named 1⟩, ⟨"B", "b", false, "", .named 1⟩] ∧
    fieldByJSONTag 5 gateProgram
        (.mk (.named 2) (.addr ⟨1, []⟩) false false none) "zzz" =
      .ok (.mk (.named 1) (.addr ⟨1, [1]⟩) false false none) ∧
    (Value.mk (.named 1) (.addr ⟨1, [1]⟩) false false none).IsValid = true ∧
    fieldByJSONTag 5 gateProgram
        (.mk (.named 2) (.addr ⟨1, []⟩) false false none) "" =
      .ok (.mk (.named 1) (.addr ⟨1, [0]⟩) false false none) :=
  ⟨rfl, rfl, rfl, rfl⟩

/-! ## Claims about set -/

theorem list_set_get_self {α : Type} (l : List α) (i : Nat) (a b : α)
    (h : l[i]? = some a) : (l.set i b)[i]? = some b := by
  induction l generalizing i with
  | nil => simp at h
  | cons x xs ih =>
    cases i with
    | zero => simp
    | succ j => simp at h; simpa using ih j h

theorem GoVal.writePath_ok (v : GoVal) (path : List Nat) (x cur : GoVal)
    (h : v.readPath path = some cur) :
    ∃ v', v.writePath path x = some v' ∧ v'.readPath path = some x := by
  induction path generalizing v with
  | nil => exact ⟨x, by simp [GoVal.writePath], by simp [GoVal.readPath]⟩
  | cons i rest ih =>
    cases v <;> simp [GoVal.readPath] at h
    case struct fs =>
      cases hf : fs[i]? with
      | none => simp [hf] at h
      | some f =>
        simp [hf] at h
        obtain ⟨f', h1, h2⟩ := ih f h
        refine ⟨.struct (fs.set i f'), by simp [GoVal.writePath, hf, h1], ?_⟩
        simp [GoVal.readPath, list_set_get_self fs i f f' hf, h2]

theorem Heap.write_ok (h : Heap) (l : Loc) (x cur : GoVal) (hr : h.read l = some cur) :
    ∃ h', h.write l x = some h' ∧ h'.read l = some x := by
  unfold Heap.read at hr
  cases ho : h[l.base]? with
  | none => simp [ho] at hr
  | some o =>
    simp [ho] at hr
    obtain ⟨o', h1, h2⟩ := GoVal.writePath_ok o l.path x cur hr
    refine ⟨h.set l.base o', by simp [Heap.write, ho, h1], ?_⟩
    simp [Heap.read, list_set_get_self h l.base o o' ho, h2]

theorem Set_ok (p : Program) (t : GoType) (l : Loc) (d : Data) (x cur : GoVal) (st : State)
    (hr : st.heap.read l = some cur)
    (hx : (Value.mk t d false false none).load st.heap = .ok x) :
    ∃ st', (Value.mk t (.addr l) false false none).Set p (.mk t d false false none) st =
        .ok () st' ∧ st'.heap.read l = some x ∧
      st'.jsonTagTo = st.jsonTagTo ∧ st'.jsonTagFrom = st.jsonTagFrom ∧
      st'.setLog = st.setLog := by
  obtain ⟨h', h1, h2⟩ := Heap.write_ok st.heap l x cur hr
  exact ⟨{ st with heap := h' }, by simp [Value.Set, assignTo, directlyAssignable, hx, h1],
    h2, rfl, rfl, rfl⟩

theorem kind_ptr_underlying (p : Program) (t : GoType) (hk : t.Kind p = .Ptr) :
    ∃ e, t.underlying p = .ptr e := by
  unfold GoType.Kind at hk
  cases hu : t.underlying p with
  | ptr e => exact ⟨e, rfl⟩
  | basic b => rw [hu] at hk; cases b <;> simp [Underlying.kind, Basic.kind] at hk
  | _ => rw [hu] at hk; simp [Underlying.kind] at hk

theorem Zero_ptr (fuel : Nat) (p : Program) (t : GoType) (hk : t.Kind p = .Ptr) :
    Zero (fuel + 1) p t = .ok (.mk t (.imm .nil) false false none) := by
  obtain ⟨e, he⟩ := kind_ptr_underlying p t hk
  simp [Zero, zeroVal, he]

theorem IsNil_of_nil (p : Program) (h : Heap) (v : Value) (hk : v.Kind p = .Ptr)
    (hn : v.load h = .ok .nil) : v.IsNil p h = .ok true := by
  cases v with
  | zero => simp [Value.Kind] at hk
  | mk t d s e m =>
    cases m with
    | some i => simp [Value.Kind] at hk
    | none =>
      simp only [Value.Kind] at hk
      simp [Value.IsNil, hk, hn]

/-- C16 (counterexample): with the gate open, `set` of a nil `*int` into a
settable `int` variable holding 5 returns true and leaves 5 in the variable,
not the zero value 0: the type `*int` does not convert to `int`, the variable
is no Scanner, and the retry on the pointee of the nil pointer has nothing to
assign. -/
theorem set_nil_into_int_keeps_value :
    fiveState.jsonTagFrom = fiveState.jsonTagTo ∧
    intDest.CanSet = true ∧
    nilIntPtr.IsNil convProgram fiveState.heap = .ok true ∧
    set 5 convProgram intDest nilIntPtr fiveState = .ok true ⟨[.int 5], "", "", [true, true]⟩ :=
  ⟨rfl, rfl, rfl, rfl⟩

/-- C16 (amended): with the gate open, for every settable destination `to` of
pointer kind, whatever it currently holds, and every source `from` that is a
nil pointer, `set(to, from)` returns true without panicking and afterwards
`to` holds nil. -/
theorem set_nil_clears_pointer (fuel : Nat) (p : Program) (tt : GoType) (l : Loc)
    (cur : GoVal) (from_ : Value) (st : State)
    (hgate : st.jsonTagFrom = st.jsonTagTo) (hk : tt.Kind p = .Ptr)
    (hcur : st.heap.read l = some cur)
    (hfk : from_.Kind p = .Ptr) (hnil : from_.load st.heap = .ok .nil) :
    ∃ st', set (fuel + 1) p (.mk tt (.addr l) false false none) from_ st = .ok true st' ∧
      st'.heap.read l = some .nil := by
  have hvalid : from_.IsValid = true := by
    cases from_ with
    | zero => simp [Value.Kind] at hfk
    | mk _ _ _ _ _ => rfl
  obtain ⟨s1, hs1, hread, _, _, _⟩ :=
    Set_ok p tt l (.imm .nil) .nil cur st hcur (by simp [Value.load])
  refine ⟨{ s1 with setLog := s1.setLog ++ [true] }, ?_, hread⟩
  have htk : (Value.mk tt (.addr l) false false none).Kind p = .Ptr := by
    simp [Value.Kind, hk]
  have htyp : (Value.mk tt (.addr l) false false none).Typ p = .ok tt := rfl
  simp only [set, logSet, bind_getState]
  simp only [hgate, bne_self_eq_false, Bool.false_eq_true, if_false, hvalid, if_true, htk,
    beq_self_eq_true, setPtr, bind_readHeap, hfk, IsNil_of_nil p st.heap from_ hfk hnil,
    bind_liftR, htyp, Zero_ptr fuel p tt hk, bind_apply, readHeap, liftR, hs1, pure_apply]

/-- C16 (witness): a nil `*int` set into a `*int` variable that points to an
`int`. -/
theorem set_nil_clears_pointer_witness :
    ∃ st', set 5 convProgram ptrDest nilIntPtr ptrState = .ok true st' ∧
      st'.heap.read ⟨0, []⟩ = some .nil :=
  set_nil_clears_pointer 4 convProgram (.ptr (.basic .int)) ⟨0, []⟩ (.ptr ⟨1, []⟩) nilIntPtr
    ptrState rfl rfl rfl rfl rfl

theorem intBits_pos (k : Kind) (sg : Bool) (w : Nat) (h : intBits k = some (sg, w)) :
    0 < w := by
  cases k <;> simp [intBits] at h <;> omega

theorem wrapInt_of_inRange (sg : Bool) (w : Nat) (n : Int) (hw : 0 < w)
    (h : inRange sg w n) : wrapInt sg w n = n := by
  unfold inRange at h
  unfold wrapInt
  cases sg with
  | false =>
    simp at h
    simp
    exact Int.emod_eq_of_lt h.1 h.2
  | true =>
    simp at h
    simp
    have e : (2 : Int) ^ w = 2 ^ (w - 1) * 2 := by
      rw [← pow_succ]
      congr 1
      omega
    rw [e]
    generalize (2 : Int) ^ (w - 1) = P at h ⊢
    rw [Int.emod_eq_of_lt (by omega) (by omega)]
    omega

/-- C17 (counterexample): with the gate open, `set` of `int64(300)` into a
settable `int8` variable returns true after assigning, and the variable then
holds 44, which is 300 reduced modulo 256, not 300. -/
theorem set_int64_into_int8_truncates :
    scalarState.jsonTagFrom = scalarState.jsonTagTo ∧
    int8Dest.CanSet = true ∧
    set 5 convProgram int8Dest int64Of300 scalarState =
      .ok true ⟨[.int 44], "", "", [true]⟩ ∧
    (44 : Int) ≠ 300 :=
  ⟨rfl, rfl, rfl, by decide⟩

/-! ## deepFields is the depth-first flattening -/

theorem list_drop_cons_of_get {α : Type} (l : List α) (i : Nat) (a : α)
    (h : l[i]? = some a) : l.drop i = a :: l.drop (i + 1) := by
  induction l generalizing i with
  | nil => simp at h
  | cons x xs ih =>
    cases i with
    | zero => simp at h; simp [h]
    | succ j => simp at h; simpa using ih j h

theorem deepFieldsLoop_eq (p : Program) (deep : GoType → Res (List StructField))
    (t : GoType) (fs : List StructField) (hu : t.underlying p = .struct fs)
    (todo i : Nat) (acc : List StructField) (hlen : i + todo = fs.length) :
    deepFieldsLoop p deep t todo i acc =
      match flattenList deep (fs.drop i) with
      | .ok back => .ok (acc ++ back)
      | .error e => .error e := by
  induction todo generalizing i acc with
  | zero =>
    have : fs.drop i = [] := by
      apply List.drop_eq_nil_of_le
      omega
    simp [deepFieldsLoop, this, flattenList]
  | succ n ih =>
    have hi : i < fs.length := by omega
    have hget : fs[i]? = some fs[i] := List.getElem?_eq_getElem hi
    have hfield : t.Field p i = .ok fs[i] := by simp [GoType.Field, hu, hget]
    rw [list_drop_cons_of_get fs i fs[i] hget]
    simp only [deepFieldsLoop, hfield, flattenList]
    by_cases ha : fs[i].Anonymous = true
    · simp only [ha, if_true]
      cases hd : deep fs[i].Typ with
      | error e => simp
      | ok front =>
        simp only []
        rw [ih (i + 1) (acc ++ front) (by omega)]
        cases flattenList deep (fs.drop (i + 1)) with
        | error e => simp
        | ok back => simp
    · simp only [ha, Bool.false_eq_true, if_false]
      rw [ih (i + 1) (acc ++ [fs[i]]) (by omega)]
      cases flattenList deep (fs.drop (i + 1)) with
      | error e => simp
      | ok back => simp

theorem deepFields_eq_flattenSpec (fuel : Nat) (p : Program) (t : GoType) :
    deepFields fuel p t = flattenSpec fuel p t := by
  induction fuel generalizing t with
  | zero => rfl
  | succ n ih =>
    have hfun : deepFields n p = flattenSpec n p := funext ih
    simp only [deepFields, flattenSpec]
    cases hi : indirectType (n + 1) p t with
    | error e => rfl
    | ok rt =>
      simp only []
      cases hu : rt.underlying p with
      | struct fs =>
        have hk : rt.Kind p = .Struct := by simp [GoType.Kind, hu, Underlying.kind]
        have hn : rt.NumField p = .ok fs.length := by simp [GoType.NumField, hu]
        simp only [hk, beq_self_eq_true, if_true, hn]
        rw [deepFieldsLoop_eq p _ rt fs hu fs.length 0 [] (by omega), hfun]
        simp only [List.drop_zero, List.nil_append]
        cases flattenList (flattenSpec n p) fs <;> rfl
      | basic b =>
        have hk : rt.Kind p ≠ .Struct := by
          cases b <;> simp [GoType.Kind, hu, Underlying.kind, Basic.kind]
        simp [hk]
      | ptr e => simp [GoType.Kind, hu, Underlying.kind]
      | slice e => simp [GoType.Kind, hu, Underlying.kind]
      | func a b => simp [GoType.Kind, hu, Underlying.kind]
      | map a b => simp [GoType.Kind, hu, Underlying.kind]
      | iface ms => simp [GoType.Kind, hu, Underlying.kind]

theorem flattenList_not_anonymous (deep : GoType → Res (List StructField))
    (hdeep : ∀ t fs, deep t = .ok fs → ∀ f ∈ fs, f.Anonymous = false)
    (l out : List StructField) (h : flattenList deep l = .ok out) :
    ∀ f ∈ out, f.Anonymous = false := by
  induction l generalizing out with
  | nil =>
    simp [flattenList] at h
    subst h
    simp
  | cons g rest ih =>
    simp only [flattenList] at h
    split at h
    · simp at h
    · rename_i front hfront
      split at h
      · simp at h
      · rename_i back hback
        simp at h
        subst h
        intro f hf
        rcases List.mem_append.mp hf with h1 | h1
        · by_cases ha : g.Anonymous = true
          · simp only [ha, if_true] at hfront
            exact hdeep _ _ hfront f h1
          · simp only [ha, Bool.false_eq_true, if_false] at hfront
            simp at hfront
            subst hfront
            simp at h1
            subst h1
            simpa using ha
        · exact ih back hback f h1

theorem flattenSpec_not_anonymous (fuel : Nat) (p : Program) (t : GoType)
    (fs : List StructField) (h : flattenSpec fuel p t = .ok fs) :
    ∀ f ∈ fs, f.Anonymous = false := by
  induction fuel generalizing t fs with
  | zero => simp [flattenSpec] at h
  | succ n ih =>
    simp only [flattenSpec] at h
    split at h
    · simp at h
    · split at h
      · exact flattenList_not_anonymous _ (fun t fs hh => ih t fs hh) _ _ h
      · simp at h
        subst h
        simp

/-- C19: `deepFields` is the depth-first flattening of the specification:
for every fuel, program and type the two agree (they return the same list, or
fail alike when the embedding structure is not exhausted by the fuel), so
`deepFields(t)` is the empty list when the stripped type is not a struct and
otherwise the concatenation, in declaration order, of `[f]` for the
non-embedded fields and of the deep fields of the types of the embedded ones;
and no returned field is anonymous. -/
theorem deepFields_is_flattening (fuel : Nat) (p : Program) (t : GoType) :
    deepFields fuel p t = flattenSpec fuel p t ∧
      ∀ fs, deepFields fuel p t = .ok fs → ∀ f ∈ fs, f.Anonymous = false := by
  refine ⟨deepFields_eq_flattenSpec fuel p t, ?_⟩
  intro fs h
  rw [deepFields_eq_flattenSpec] at h
  exact flattenSpec_not_anonymous fuel p t fs h

/-- C19 (witness): for `Outer = struct { A; Mid; B }` with
`Mid = struct { *Inner; Z }` and `Inner = struct { X; Y }`, the deep fields of
`*Outer` are `A, X, Y, Z, B`. -/
theorem deepFields_is_flattening_witness :
    deepFields 5 embedProgram (.ptr (.named 2)) =
      flattenSpec 5 embedProgram (.ptr (.named 2)) ∧
    deepFields 5 embedProgram (.ptr (.named 2)) =
      .ok [⟨"A", "a", false, "", .basic .int⟩, ⟨"X", "x", false, "", .basic .int⟩,
        ⟨"Y", "y", false, "", .basic .string⟩, ⟨"Z", "z", false, "", .basic .int⟩,
        ⟨"B", "b", false, "", .slice (.named 0)⟩] :=
  ⟨(deepFields_is_flattening 5 embedProgram (.ptr (.named 2))).1, rfl⟩

/-! ## Claims about methodByJSONTag -/

theorem indirectType_plain (fuel : Nat) (p : Program) (t rt : GoType)
    (h1 : t.Kind p ≠ .Ptr) (h2 : t.Kind p ≠ .Slice)
    (h : indirectType fuel p t = .ok rt) : rt = t := by
  cases fuel with
  | zero => simp [indirectType] at h
  | succ n =>
    simp [indirectType, h1, h2] at h
    exact h.symm

/-- C20 (counterexample): for the value `Tree{}` of type `type Tree []Tree`,
whose underlying type is a slice and not a struct, `methodByJSONTag` neither
returns the invalid value nor panics: `indirectType` never finishes stripping
the slice layers, whatever the fuel. -/
theorem methodByJSONTag_recursive_slice_never_returns :
    (GoType.named 0).Kind treeProgram = .Slice ∧
    ∀ fuel, methodByJSONTag fuel treeProgram treeState.heap (ValueOf treeFrom) "a" =
      .error .timeout := by
  refine ⟨rfl, ?_⟩
  intro fuel
  have hft : (ValueOf treeFrom).Typ treeProgram = .ok (.named 0) := rfl
  simp only [methodByJSONTag, bind, Except.bind, hft, indirectType_tree]

/-- C20 (amended): `methodByJSONTag` returns a valid method for no input.  For
a value whose type can be stripped of its pointer and slice layers, it returns
the zero Value when the stripped type is not a struct or has no methods, and
it panics otherwise (the method sets of the program holding func types, the
panic is the one of `Field(0)` on a func type, or of `Method(0)` when the
value itself has no method 0). -/
theorem methodByJSONTag_never_valid (fuel : Nat) (p : Program) (h : Heap) (source : Value)
    (jsonTag : String) (t rt : GoType)
    (hst : source.Typ p = .ok t) (hrt : indirectType fuel p t = .ok rt)
    (hwf : ∀ m ∈ t.methodSet p, m.Typ.Kind p = .Func) :
    (∀ v, methodByJSONTag fuel p h source jsonTag = .ok v → v.IsValid = false) ∧
      (rt.Kind p ≠ .Struct ∨ rt.NumMethod p = 0 →
        methodByJSONTag fuel p h source jsonTag = .ok .zero) ∧
      (rt.Kind p = .Struct → rt.NumMethod p ≠ 0 →
        ∃ msg, methodByJSONTag fuel p h source jsonTag = .error (.panic msg)) := by
  refine ⟨?_, ?_, ?_⟩
  · intro v hv
    rw [methodByJSONTag_ok fuel p h source jsonTag v hv]
    rfl
  · intro hcase
    simp only [methodByJSONTag, bind, Except.bind, hst, hrt, pure, Except.pure]
    rcases hcase with hk | hn
    · simp [hk]
    · by_cases hk : rt.Kind p = .Struct
      · simp [hk, hn, methodByJSONTagLoop]
      · simp [hk]
  · intro hk hn
    obtain ⟨k, hk1⟩ : ∃ k, rt.NumMethod p = k + 1 := ⟨rt.NumMethod p - 1, by omega⟩
    simp only [methodByJSONTag, bind, Except.bind, hst, hrt, pure, Except.pure, hk, hk1,
      methodByJSONTagLoop]
    cases source with
    | zero => simp [Value.Typ, throwPanic] at hst
    | mk t0 d s e m =>
      cases m with
      | some j =>
        exact ⟨"reflect: Method index out of range", by simp [Value.Method, throwPanic]⟩
      | none =>
        have e0 : t0 = t := by simpa [Value.Typ] using hst
        subst e0
        by_cases hle : t0.NumMethod p ≤ 0
        · exact ⟨"reflect: Method index out of range",
            by simp [Value.Method, hle, throwPanic]⟩
        · have hnotI : t0.Kind p ≠ .Interface := by
            intro hI
            have := indirectType_plain fuel p t0 rt (by simp [hI]) (by simp [hI]) hrt
            subst this
            rw [hI] at hk
            simp at hk
          have hm : (Value.mk t0 d s e none).Method p h 0 = .ok (.mk t0 d s e (some 0)) := by
            simp only [Value.Method, hle, if_false]
          have hpos : 0 < (t0.methodSet p).length := by
            simp only [GoType.NumMethod] at hle
            omega
          have hget : (t0.methodSet p)[0]? = some (t0.methodSet p)[0] :=
            List.getElem?_eq_getElem hpos
          have hfunc : (t0.methodSet p)[0].Typ.Kind p = .Func :=
            hwf _ (List.getElem_mem _)
          have hty : (Value.mk t0 d s e (some 0)).Typ p = .ok (t0.methodSet p)[0].Typ := by
            simp [Value.Typ, hget, hfunc]
          refine ⟨"reflect: Field of non-struct type", ?_⟩
          simp [hm, hty, GoType.Field_func p _ 0 hfunc, throwPanic]

/-- C20 (witness): a value of type `S` of `gateProgram`, a struct without
methods; the result is the zero Value. -/
theorem methodByJSONTag_never_valid_witness :
    methodByJSONTag 5 gateProgram gateState.heap
      (.mk (.named 2) (.addr ⟨1, []⟩) false false none) "s" = .ok .zero :=
  (methodByJSONTag_never_valid 5 gateProgram gateState.heap
    (.mk (.named 2) (.addr ⟨1, []⟩) false false none) "s" (.named 2) (.named 2) rfl rfl
    (by intro m hm; simp [GoType.methodSet, gateProgram, programOf] at hm)).2.1
    (Or.inr rfl)

/-! ## Integer conversion in set -/

theorem wrapInt_eq_iff (sg : Bool) (w : Nat) (n : Int) (hw : 0 < w) :
    wrapInt sg w n = n ↔ inRange sg w n := by
  constructor
  · intro h
    unfold wrapInt at h
    unfold inRange
    cases sg with
    | false =>
      simp at h
      simp
      have hp : (0 : Int) < 2 ^ w := by positivity
      exact ⟨by rw [← h]; exact Int.emod_nonneg _ (ne_of_gt hp),
        by rw [← h]; exact Int.emod_lt_of_pos _ hp⟩
    | true =>
      simp at h
      simp
      have e : (2 : Int) ^ w = 2 ^ (w - 1) * 2 := by
        rw [← pow_succ]
        congr 1
        omega
      have hp : (0 : Int) < 2 ^ (w - 1) := by positivity
      rw [e] at h
      generalize (2 : Int) ^ (w - 1) = P at h hp ⊢
      have h1 := Int.emod_nonneg (n + P) (ne_of_gt (show (0 : Int) < P * 2 by omega))
      have h2 := Int.emod_lt_of_pos (n + P) (show (0 : Int) < P * 2 by omega)
      constructor <;> omega
  · exact wrapInt_of_inRange sg w n hw

/-- C17 (amended): with the gate open, for every integer-kinded source value
`n` and every settable integer-kinded destination of width `w`: whenever `set`
returns, it returns true after assigning, the destination then holds `n`
reduced modulo `2^w` into the range of its type, and the destination holds `n`
itself if and only if `n` is representable in that type; `set` does return when
the source is not read-only, and panics when it is. -/
theorem set_int_wraps (fuel : Nat) (p : Program) (tt ft : GoType) (l : Loc) (d : Data)
    (s e : Bool) (cur : GoVal) (n : Int) (sg : Bool) (w : Nat) (st : State)
    (hgate : st.jsonTagFrom = st.jsonTagTo)
    (hto : intBits (tt.Kind p) = some (sg, w)) (hfrom : isIntKind (ft.Kind p) = true)
    (hcur : st.heap.read l = some cur)
    (hload : (Value.mk ft d s e none).load st.heap = .ok (.int n)) :
    (∀ b st', set (fuel + 1) p (.mk tt (.addr l) false false none)
        (.mk ft d s e none) st = .ok b st' →
        b = true ∧ st'.heap.read l = some (.int (wrapInt sg w n)) ∧
          (st'.heap.read l = some (.int n) ↔ inRange sg w n)) ∧
      ((s || e) = false → ∃ st', set (fuel + 1) p (.mk tt (.addr l) false false none)
        (.mk ft d s e none) st = .ok true st') ∧
      ((s || e) = true → ∃ msg st', set (fuel + 1) p (.mk tt (.addr l) false false none)
        (.mk ft d s e none) st = .fail (.panic msg) st') := by
  have hti : isIntKind (tt.Kind p) = true := by simp [isIntKind, hto]
  have htk : (Value.mk tt (.addr l) false false none).Kind p ≠ .Ptr := by
    intro hk
    simp only [Value.Kind] at hk
    rw [hk] at hto
    simp [intBits] at hto
  have hconv : ft.ConvertibleTo p tt = .ok true := by
    simp [GoType.ConvertibleTo, hfrom, hti]
  have hcv : (Value.mk ft d s e none).Convert p st.heap tt =
      .ok (.mk tt (.imm (.int (wrapInt sg w n))) s e none) := by
    simp [Value.Convert, hconv, hload, hfrom, hti, hto]
  have htyp : (Value.mk tt (.addr l) false false none).Typ p = .ok tt := rfl
  have hftyp : (Value.mk ft d s e none).Typ p = .ok ft := rfl
  have hv : (Value.mk ft d s e none).IsValid = true := rfl
  have hrun : set (fuel + 1) p (.mk tt (.addr l) false false none) (.mk ft d s e none) st =
      logSet (fun st0 =>
        match (Value.mk tt (.addr l) false false none).Set p
            (.mk tt (.imm (.int (wrapInt sg w n))) s e none) st0 with
        | .ok _ s1 => .ok true s1
        | .fail f s1 => .fail f s1) st := by
    simp only [set, logSet, bind_getState]
    simp only [hgate, bne_self_eq_false, Bool.false_eq_true, if_false, hv, if_true, htk,
      beq_iff_eq, setAssign, bind_liftR, htyp, hftyp, hconv, bind_apply, readHeap, liftR, hcv,
      pure_apply]
    cases (Value.mk tt (.addr l) false false none).Set p
      (.mk tt (.imm (.int (wrapInt sg w n))) s e none) st <;> rfl
  refine ⟨?_, ?_, ?_⟩
  · intro b st' hb
    rw [hrun] at hb
    by_cases hro : (s || e) = true
    · simp [logSet, Value.Set, assignTo, hro, throwPanic] at hb
    · have hs : s = false := by cases s <;> simp_all
      have he : e = false := by cases e <;> simp_all
      subst hs he
      obtain ⟨s1, hs1, hread, _, _, _⟩ :=
        Set_ok p tt l (.imm (.int (wrapInt sg w n))) (.int (wrapInt sg w n)) cur st hcur
          (by simp [Value.load])
      simp only [logSet, hs1] at hb
      simp at hb
      obtain ⟨rfl, rfl⟩ := hb
      refine ⟨rfl, hread, ?_⟩
      rw [← wrapInt_eq_iff sg w n (intBits_pos _ sg w hto)]
      change s1.heap.read l = some (.int n) ↔ wrapInt sg w n = n
      rw [hread]
      constructor
      · intro h
        injection h with h
        injection h
      · intro h
        rw [h]
  · intro hro
    have hs : s = false := by cases s <;> simp_all
    have he : e = false := by cases e <;> simp_all
    subst hs he
    obtain ⟨s1, hs1, _, _, _, _⟩ :=
      Set_ok p tt l (.imm (.int (wrapInt sg w n))) (.int (wrapInt sg w n)) cur st hcur
        (by simp [Value.load])
    exact ⟨{ s1 with setLog := s1.setLog ++ [true] }, by rw [hrun]; simp only [logSet, hs1]⟩
  · intro hro
    rw [hrun]
    simp [logSet, Value.Set, assignTo, hro, throwPanic]

/-- C17 (witness): `int64(300)` set into an `int8` variable: `set` returns true,
the variable then holds 300 reduced modulo 256, which is 44, and it holds 300
itself if and only if 300 is representable in `int8`, which it is not. -/
theorem set_int_wraps_witness :
    (true = true ∧
      (⟨[.int 44], "", "", [true]⟩ : State).heap.read ⟨0, []⟩ =
        some (.int (wrapInt true 8 300)) ∧
      ((⟨[.int 44], "", "", [true]⟩ : State).heap.read ⟨0, []⟩ = some (.int 300) ↔
        inRange true 8 300)) ∧
    (∃ st', set 5 convProgram int8Dest int64Of300 scalarState = .ok true st') :=
  ⟨(set_int_wraps 4 convProgram (.basic .int8) (.basic .int64) ⟨0, []⟩ (.imm (.int 300))
      false false (.int 0) 300 true 8 scalarState rfl rfl rfl rfl rfl).1 true
      ⟨[.int 44], "", "", [true]⟩ rfl,
    (set_int_wraps 4 convProgram (.basic .int8) (.basic .int64) ⟨0, []⟩ (.imm (.int 300))
      false false (.int 0) 300 true 8 scalarState rfl rfl rfl rfl rfl).2.1 rfl⟩

/-! ## The gate in every run, returning or not -/

theorem setAssign_self_all (p : Program) (retry : Value → Value → Exec Bool) (t : GoType)
    (l : Loc) (st : State) (hk : t.Kind p = .Struct) :
    setAssign p retry (.mk t (.addr l) false false none)
        (.mk t (.addr l) false false none) st = .ok true st ∨
      ∃ f, setAssign p retry (.mk t (.addr l) false false none)
        (.mk t (.addr l) false false none) st = .fail f st := by
  unfold setAssign
  simp only [bind_liftR, Value.Typ, ConvertibleTo_self_struct p t hk, if_true, bind_readHeap]
  cases hr : st.heap.read l with
  | none =>
    right
    exact ⟨.stuck, by simp [Value.Convert, ConvertibleTo_self_struct p t hk, Value.load, hr]⟩
  | some x =>
    left
    rw [Convert_self_struct p st.heap t l x hk hr]
    simp only [bind_apply, Set_self p t l x st hr, pure_apply]

theorem set_self_all (fuel : Nat) (p : Program) (t : GoType) (l : Loc) (st : State)
    (hk : t.Kind p = .Struct) :
    (∃ f, set fuel p (.mk t (.addr l) false false none)
        (.mk t (.addr l) false false none) st = .fail f st) ∨
      (st.jsonTagFrom = st.jsonTagTo ∧
        set fuel p (.mk t (.addr l) false false none)
          (.mk t (.addr l) false false none) st =
            .ok true { st with setLog := st.setLog ++ [true] }) ∨
      (st.jsonTagFrom ≠ st.jsonTagTo ∧
        set fuel p (.mk t (.addr l) false false none)
          (.mk t (.addr l) false false none) st =
            .ok false { st with setLog := st.setLog ++ [false] }) := by
  cases fuel with
  | zero => exact Or.inl ⟨.timeout, rfl⟩
  | succ n =>
    by_cases hg : st.jsonTagFrom = st.jsonTagTo
    · have hb : (st.jsonTagFrom != st.jsonTagTo) = false := by simp [hg]
      have hkp : ((Value.mk t (.addr l) false false none).Kind p == Kind.Ptr) = false := by
        simp [Value.Kind, hk]
      have hrun : set (n + 1) p (.mk t (.addr l) false false none)
          (.mk t (.addr l) false false none) st =
          logSet (setAssign p (set n p) (.mk t (.addr l) false false none)
            (.mk t (.addr l) false false none)) st := by
        simp only [set, logSet, bind_getState, hb, Bool.false_eq_true, if_false,
          Value.IsValid, if_true, hkp]
      rcases setAssign_self_all p (set n p) t l st hk with h | ⟨f, h⟩
      · right; left
        refine ⟨hg, ?_⟩
        rw [hrun]
        simp only [logSet, h]
      · left
        refine ⟨f, ?_⟩
        rw [hrun]
        simp only [logSet, h]
    · right; right
      have hne : (st.jsonTagFrom != st.jsonTagTo) = true := by simpa using hg
      refine ⟨hg, ?_⟩
      simp only [set, logSet, bind_getState, hne, if_true, pure_apply]

theorem OpenRun.open_of_fail {α : Type} (s : State) (f : Fault) : OpenRun s (.fail f s : Outcome α) :=
  ⟨rfl, ⟨0, by simp [Outcome.state]⟩, by simp [Outcome.isOk]⟩

theorem OpenRun.open_of_ok {α : Type} (s : State) (a : α) : OpenRun s (.ok a s : Outcome α) :=
  ⟨rfl, ⟨0, by simp [Outcome.state]⟩, by simp [Outcome.state]⟩

theorem OpenRun.open_congr {α β : Type} {s : State} {o : Outcome α} {o' : Outcome β}
    (h : OpenRun s o) (hs : o'.state = o.state) (hok : o'.isOk = true → o.isOk = true) :
    OpenRun s o' := by
  obtain ⟨h1, h2, h3⟩ := h
  exact ⟨by rw [hs]; exact h1, by rw [hs]; exact h2, fun hh => by rw [hs]; exact h3 (hok hh)⟩

theorem OpenRun.step {α β : Type} {s s1 : State} {a : α} {o : Outcome β}
    (h1 : OpenRun s (.ok a s1 : Outcome α)) (h2 : OpenRun s1 o) : OpenRun s o := by
  obtain ⟨a1, ⟨k1, b1⟩, c1⟩ := h1
  obtain ⟨a2, ⟨k2, b2⟩, c2⟩ := h2
  simp only [Outcome.state, Outcome.isOk, forall_true_left] at a1 b1 c1
  refine ⟨a2.trans a1, ⟨k1 + k2, ?_⟩, ?_⟩
  · rw [b2, b1, List.append_assoc, List.replicate_add]
  · intro hh
    obtain ⟨d1, d2⟩ := c2 hh
    exact ⟨d1.trans c1.1, d2.trans c1.2⟩

theorem setOrCopy_open (fuel : Nat) (p : Program)
    (copy : Iface → Iface → Exec (Option String)) (source v : Value)
    (hv : IsScannedField p source v) (st : State)
    (hg : st.jsonTagFrom = st.jsonTagTo) :
    OpenRun st (setOrCopy fuel p copy v v st) := by
  unfold setOrCopy
  split
  · rename_i hc
    obtain ⟨t, d, s, e, hshape, hk⟩ := IsScannedField.shape p source v hv
    obtain ⟨l, rfl⟩ := canSet_shape v t d s e hshape hc
    rw [bind_apply]
    rcases set_self_all fuel p t l st hk with ⟨f, h⟩ | ⟨_, h⟩ | ⟨hne, _⟩
    · rw [h]
      exact OpenRun.open_of_fail st f
    · rw [h]
      simp only [Bool.not_true, Bool.false_eq_true, if_false, pure_apply]
      exact ⟨rfl, ⟨1, rfl⟩, fun _ => ⟨rfl, rfl⟩⟩
    · exact absurd hg hne
  · exact OpenRun.open_of_ok st none

theorem fieldStep_open (fuel : Nat) (p : Program)
    (copy : Iface → Iface → Exec (Option String)) (source dest : Value)
    (field : StructField) (st : State) (hg : st.jsonTagFrom = st.jsonTagTo) :
    OpenRun st (fieldStep fuel p copy source dest field st) := by
  unfold fieldStep
  simp only [bind_liftR]
  cases hf : fieldByJSONTag fuel p source field.Tag with
  | error e => exact OpenRun.open_of_fail st e
  | ok v =>
    simp only []
    split
    · rename_i hvalid
      rcases fieldByJSONTag_ok fuel p source field.Tag v hf with hz | hs
      · subst hz
        simp [Value.IsValid] at hvalid
      · simp only [bind_liftR, hvalid, if_true]
        exact setOrCopy_open fuel p copy source v hs st hg
    · exact OpenRun.open_of_ok st none

theorem fieldPass_open (fuel : Nat) (p : Program)
    (copy : Iface → Iface → Exec (Option String)) (source dest : Value)
    (fields : List StructField) (st : State) (hg : st.jsonTagFrom = st.jsonTagTo) :
    OpenRun st (fieldPass fuel p copy source dest fields st) := by
  induction fields generalizing st with
  | nil => exact OpenRun.open_of_ok st none
  | cons field rest ih =>
    simp only [fieldPass]
    rw [bind_apply]
    have h1 := fieldStep_open fuel p copy source dest field st hg
    cases ho : fieldStep fuel p copy source dest field st with
    | fail f s1 =>
      rw [ho] at h1
      exact h1.open_congr rfl (by simp [Outcome.isOk])
    | ok r s1 =>
      rw [ho] at h1
      cases r with
      | some err => exact h1.open_congr rfl (by simp [Outcome.isOk])
      | none =>
        have hg1 : s1.jsonTagFrom = s1.jsonTagTo := by
          obtain ⟨_, _, c⟩ := h1
          obtain ⟨c1, c2⟩ := c rfl
          simp only [Outcome.state] at c1 c2
          rw [c1, c2]
          exact hg
        exact h1.step (ih s1 hg1)

theorem fromMethodOf_all (fuel : Nat) (p : Program) (source : Value) (tag : String)
    (st : State) :
    fromMethodOf fuel p source tag st = .ok .zero st ∨
      ∃ f, fromMethodOf fuel p source tag st = .fail f st := by
  cases ho : fromMethodOf fuel p source tag st with
  | ok m s1 =>
    obtain ⟨rfl, rfl⟩ := fromMethodOf_ok fuel p source tag st s1 m ho
    exact Or.inl rfl
  | fail f s1 =>
    right
    refine ⟨f, ?_⟩
    unfold fromMethodOf at ho
    split at ho
    · rw [bind_liftR] at ho
      split at ho
      · simp only [readHeap, liftR] at ho
        split at ho
        · simp at ho
        · simp at ho
          rw [ho.2]
      · simp at ho
        rw [ho.2]
    · simp only [readHeap, liftR] at ho
      split at ho
      · simp at ho
      · simp at ho
        rw [ho.2]

theorem methodStep_all (fuel : Nat) (p : Program) (source dest : Value)
    (field : StructField) (st : State) :
    methodStep fuel p source dest field st = .ok () st ∨
      ∃ f, methodStep fuel p source dest field st = .fail f st := by
  unfold methodStep
  rw [bind_apply]
  rcases fromMethodOf_all fuel p source field.Tag st with h | ⟨f, h⟩
  · left
    rw [h]
    simp [isGetter, Value.IsValid, bind_liftR, pure_apply, pure, Except.pure, Exec.pure]
  · right
    rw [h]
    exact ⟨f, rfl⟩

theorem methodPass_all (fuel : Nat) (p : Program) (source dest : Value)
    (fields : List StructField) (st : State) :
    methodPass fuel p source dest fields st = .ok () st ∨
      ∃ f, methodPass fuel p source dest fields st = .fail f st := by
  induction fields with
  | nil => exact Or.inl rfl
  | cons field rest ih =>
    simp only [methodPass]
    rw [bind_apply]
    rcases methodStep_all fuel p source dest field st with h | ⟨f, h⟩
    · rw [h]
      exact ih
    · right
      rw [h]
      exact ⟨f, rfl⟩

theorem bothPasses_open (fuel : Nat) (p : Program)
    (copy : Iface → Iface → Exec (Option String)) (source dest : Value)
    (fromType toType : GoType) (st : State) (hg : st.jsonTagFrom = st.jsonTagTo) :
    OpenRun st (bothPasses fuel p copy source dest fromType toType st) := by
  unfold bothPasses
  split
  · rw [bind_liftR]
    split
    · rename_i fs _
      rw [bind_apply]
      have h1 := fieldPass_open fuel p copy source dest fs st hg
      cases ho : fieldPass fuel p copy source dest fs st with
      | fail f s1 =>
        rw [ho] at h1
        exact h1.open_congr rfl (by simp [Outcome.isOk])
      | ok r s1 =>
        rw [ho] at h1
        cases r with
        | some err => exact h1.open_congr rfl (by simp [Outcome.isOk])
        | none =>
          simp only [bind_liftR]
          split
          · rw [bind_apply]
            rename_i tfs _
            rcases methodPass_all fuel p source dest tfs s1 with h | ⟨f, h⟩
            · rw [h]
              exact h1.open_congr rfl (by simp [Outcome.isOk])
            · rw [h]
              exact h1.open_congr rfl (by simp [Outcome.isOk])
          · exact h1.open_congr rfl (by simp [Outcome.isOk])
    · exact OpenRun.open_of_fail st _
  · exact OpenRun.open_of_ok st none

theorem sourceAndDest_all (fuel : Nat) (p : Program) (from_ to_ : Value) (toType : GoType)
    (i : Nat) (st : State) :
    (∃ sd, sourceAndDest fuel p false from_ to_ toType i st = .ok sd st) ∨
      ∃ f, sourceAndDest fuel p false from_ to_ toType i st = .fail f st := by
  unfold sourceAndDest
  simp only [Bool.false_eq_true, if_false, bind_readHeap]
  cases indirect fuel p st.heap from_ with
  | error e => exact Or.inr ⟨e, rfl⟩
  | ok src =>
    simp only []
    cases indirect fuel p st.heap to_ with
    | error e => exact Or.inr ⟨e, rfl⟩
    | ok dst => exact Or.inl ⟨(src, dst), rfl⟩

theorem copyLoop_one_open (fuel : Nat) (p : Program)
    (copy : Iface → Iface → Exec (Option String)) (from_ to_ : Value)
    (fromType toType : GoType) (st : State) (hg : st.jsonTagFrom = st.jsonTagTo) :
    OpenRun st (copyLoop fuel p copy false from_ to_ fromType toType 1 0 st) := by
  simp only [copyLoop, copyElem]
  rw [bind_apply, bind_apply]
  rcases sourceAndDest_all fuel p from_ to_ toType 0 st with ⟨sd, h⟩ | ⟨f, h⟩
  · rw [h]
    simp only []
    rw [bind_apply]
    have h1 := bothPasses_open fuel p copy sd.1 sd.2 fromType toType st hg
    cases ho : bothPasses fuel p copy sd.1 sd.2 fromType toType st with
    | fail f s1 =>
      rw [ho] at h1
      exact h1.open_congr rfl (by simp [Outcome.isOk])
    | ok r s1 =>
      rw [ho] at h1
      cases r with
      | some err => exact h1.open_congr rfl (by simp [Outcome.isOk])
      | none => exact h1.open_congr rfl (by simp [Outcome.isOk])
  · rw [h]
    exact OpenRun.open_of_fail st f

theorem copyValid_all (fuel : Nat) (p : Program)
    (copy : Iface → Iface → Exec (Option String)) (to_ from_ : Value) (st : State)
    (tt ft : GoType) (htt : to_.Typ p = .ok tt) (hft : from_.Typ p = .ok ft) :
    (∃ f s', copyValid fuel p copy to_ from_ st = .fail f s' ∧ s'.heap = st.heap ∧
        s'.setLog = st.setLog) ∨
      ∃ tf ff, tt.Field p 0 = .ok tf ∧ ft.Field p 0 = .ok ff ∧
        copyValid fuel p copy to_ from_ st =
          copyLoop fuel p copy false from_ to_ ft tt 1 0
            { st with jsonTagTo := tf.Tag, jsonTagFrom := ff.Tag } := by
  unfold copyValid
  simp only [bind_liftR, hft, htt]
  cases hfi : indirectType fuel p ft with
  | error e => exact Or.inl ⟨e, st, rfl, rfl, rfl⟩
  | ok fromType =>
    simp only []
    cases hti : indirectType fuel p tt with
    | error e => exact Or.inl ⟨e, st, rfl, rfl, rfl⟩
    | ok toType =>
      simp only []
      cases htf : tt.Field p 0 with
      | error e => exact Or.inl ⟨e, st, rfl, rfl, rfl⟩
      | ok tf =>
        simp only [bind_apply, setJsonTagTo, bind_liftR]
        cases hff : ft.Field p 0 with
        | error e => exact Or.inl ⟨e, { st with jsonTagTo := tf.Tag }, rfl, rfl, rfl⟩
        | ok ff =>
          right
          have hkf := GoType.Field_ok_kind p ft 0 ff hff
          have hkt := GoType.Field_ok_kind p tt 0 tf htf
          have e1 := indirectType_struct_ok fuel p ft fromType hkf hfi
          have e2 := indirectType_struct_ok fuel p tt toType hkt hti
          subst e1 e2
          have hks : to_.Kind p = .Struct := by rw [Value.Typ_kind p to_ _ htt, hkt]
          refine ⟨tf, ff, rfl, rfl, ?_⟩
          simp only [liftR, setJsonTagFrom, getState, hkf, hkt, hks, amountOf, pure_apply]
          simp
          rfl

theorem NestedRun.of_open {α : Type} {s s2 : State} {o : Outcome α}
    (h : OpenRun s2 o) (hh : s2.heap = s.heap) (hl : s2.setLog = s.setLog)
    (hg : s2.jsonTagFrom = s2.jsonTagTo) : NestedRun s o := by
  obtain ⟨a, ⟨k, b⟩, c⟩ := h
  refine ⟨a.trans hh, ⟨k, by rw [b, hl]⟩, ?_⟩
  intro hok
  obtain ⟨c1, c2⟩ := c hok
  rw [c1, c2]
  exact hg

theorem Copy_nested (fuel : Nat) (p : Program) (t : GoType) (l : Loc) (x : GoVal)
    (s : State) (hk : t.Kind p = .Struct) :
    NestedRun s (Copy fuel p (some (.ptr t, .ptr l)) (some (t, x)) s) := by
  have hfail : ∀ f, NestedRun s (.fail f s : Outcome (Option String)) := fun f =>
    ⟨rfl, ⟨0, by simp [Outcome.state]⟩, by simp [Outcome.isOk]⟩
  cases fuel with
  | zero => exact hfail .timeout
  | succ n =>
    have hfrom : indirect (n + 1) p s.heap (ValueOf (some (t, x))) =
        .ok (.mk t (.imm x) false false none) :=
      indirect_of_not_ptr n p s.heap _ (by simp [ValueOf, Value.Kind, hk])
    simp only [Copy, bind_readHeap, hfrom]
    cases hto : indirect (n + 1) p s.heap (ValueOf (some (.ptr t, .ptr l))) with
    | error e => exact hfail e
    | ok to_ =>
      have e := indirect_ptr_to_struct (n + 1) p s.heap t l to_ hk hto
      subst e
      simp only [Value.CanAddr, Value.IsValid, Bool.not_true, Bool.false_eq_true, if_false]
      rcases copyValid_all (n + 1) p (Copy n p) (.mk t (.addr l) false false none)
          (.mk t (.imm x) false false none) s t t rfl rfl with
        ⟨f, s', h, hh, hl⟩ | ⟨tf, ff, htf, hff, h⟩
      · rw [h]
        exact ⟨hh, ⟨0, by simp [Outcome.state, hl]⟩, by simp [Outcome.isOk]⟩
      · rw [h]
        rw [htf] at hff
        cases hff
        exact NestedRun.of_open
          (copyLoop_one_open (n + 1) p (Copy n p) _ _ t t _ rfl) rfl rfl rfl

theorem ClosedRun.closed_of_fail {α : Type} (s : State) (f : Fault) :
    ClosedRun s (.fail f s : Outcome α) := Or.inl rfl

theorem ClosedRun.closed_of_ok {α : Type} (s : State) (a : α) :
    ClosedRun s (.ok a s : Outcome α) := Or.inl rfl

theorem ClosedRun.closed_congr {α β : Type} {s : State} {o : Outcome α} {o' : Outcome β}
    (h : ClosedRun s o) (hs : o'.state = o.state) (hok : o'.isOk = true → o.isOk = true) :
    ClosedRun s o' := by
  rcases h with h | ⟨h1, h2, h3⟩
  · exact Or.inl (hs.trans h)
  · exact Or.inr ⟨by rw [hs]; exact h1, by rw [hs]; exact h2,
      fun hh => by rw [hs]; exact h3 (hok hh)⟩

theorem ClosedRun.then_open {α β : Type} {s s1 : State} {a : α} {o : Outcome β}
    (h1 : ClosedRun s (.ok a s1 : Outcome α))
    (hclosed : s1 = s → ClosedRun s o)
    (hopen : s1.jsonTagFrom = s1.jsonTagTo → OpenRun s1 o) : ClosedRun s o := by
  rcases h1 with h | ⟨a1, ⟨k1, b1⟩, c1⟩
  · exact hclosed h
  · simp only [Outcome.state, Outcome.isOk, forall_true_left] at a1 b1 c1
    obtain ⟨a2, ⟨k2, b2⟩, c2⟩ := hopen c1
    refine Or.inr ⟨a2.trans a1, ⟨k1 + k2, ?_⟩, ?_⟩
    · rw [b2, b1, List.append_assoc, List.replicate_add]
      rfl
    · intro hh
      obtain ⟨d1, d2⟩ := c2 hh
      rw [d1, d2]
      exact c1

theorem setOrCopy_closed_all (fuel : Nat) (p : Program)
    (copy : Iface → Iface → Exec (Option String))
    (hcopy : ∀ t l x s, t.Kind p = .Struct →
      NestedRun s (copy (some (.ptr t, .ptr l)) (some (t, x)) s))
    (source v : Value) (hv : IsScannedField p source v) (st : State)
    (hg : st.jsonTagFrom ≠ st.jsonTagTo) :
    ClosedRun st (setOrCopy fuel p copy v v st) := by
  unfold setOrCopy
  split
  · rename_i hc
    obtain ⟨t, d, s, e, hshape, hk⟩ := IsScannedField.shape p source v hv
    obtain ⟨l, rfl⟩ := canSet_shape v t d s e hshape hc
    rw [bind_apply]
    rcases set_self_all fuel p t l st hk with ⟨f, h⟩ | ⟨heq, _⟩ | ⟨_, h⟩
    · rw [h]
      exact ClosedRun.closed_of_fail st f
    · exact absurd heq hg
    · rw [h]
      have hkp : (GoType.ptr t).Kind p = .Ptr := by
        simp [GoType.Kind, GoType.underlying, Underlying.kind]
      simp only [Bool.not_false, if_true, bind_liftR, bind_readHeap, Value.Addr,
        Value.Interface, Bool.or_self, Bool.false_eq_true, if_false, Value.load, hkp]
      cases hr : st.heap.read l with
      | none => exact Or.inr ⟨rfl, ⟨0, rfl⟩, by simp [Outcome.isOk]⟩
      | some x =>
        simp only [hk]
        obtain ⟨a1, ⟨k, b1⟩, c1⟩ := hcopy t l x { st with setLog := st.setLog ++ [false] } hk
        exact Or.inr ⟨a1, ⟨k, by rw [b1]; simp⟩, c1⟩
  · exact ClosedRun.closed_of_ok st none

theorem fieldStep_closed_all (fuel : Nat) (p : Program)
    (copy : Iface → Iface → Exec (Option String))
    (hcopy : ∀ t l x s, t.Kind p = .Struct →
      NestedRun s (copy (some (.ptr t, .ptr l)) (some (t, x)) s))
    (source dest : Value) (field : StructField) (st : State)
    (hg : st.jsonTagFrom ≠ st.jsonTagTo) :
    ClosedRun st (fieldStep fuel p copy source dest field st) := by
  unfold fieldStep
  simp only [bind_liftR]
  cases hf : fieldByJSONTag fuel p source field.Tag with
  | error e => exact ClosedRun.closed_of_fail st e
  | ok v =>
    simp only []
    split
    · rename_i hvalid
      rcases fieldByJSONTag_ok fuel p source field.Tag v hf with hz | hs
      · subst hz
        simp [Value.IsValid] at hvalid
      · simp only [bind_liftR, hvalid, if_true]
        exact setOrCopy_closed_all fuel p copy hcopy source v hs st hg
    · exact ClosedRun.closed_of_ok st none

theorem fieldPass_closed_all (fuel : Nat) (p : Program)
    (copy : Iface → Iface → Exec (Option String))
    (hcopy : ∀ t l x s, t.Kind p = .Struct →
      NestedRun s (copy (some (.ptr t, .ptr l)) (some (t, x)) s))
    (source dest : Value) (fields : List StructField) (st : State)
    (hg : st.jsonTagFrom ≠ st.jsonTagTo) :
    ClosedRun st (fieldPass fuel p copy source dest fields st) := by
  induction fields with
  | nil => exact ClosedRun.closed_of_ok st none
  | cons field rest ih =>
    simp only [fieldPass]
    rw [bind_apply]
    have h1 := fieldStep_closed_all fuel p copy hcopy source dest field st hg
    cases ho : fieldStep fuel p copy source dest field st with
    | fail f s1 =>
      rw [ho] at h1
      exact h1.closed_congr rfl (by simp [Outcome.isOk])
    | ok r s1 =>
      rw [ho] at h1
      cases r with
      | some err => exact h1.closed_congr rfl (by simp [Outcome.isOk])
      | none =>
        refine h1.then_open ?_ ?_
        · intro hs
          subst hs
          exact ih
        · intro hopen
          exact fieldPass_open fuel p copy source dest rest s1 hopen

theorem bothPasses_closed_all (fuel : Nat) (p : Program)
    (copy : Iface → Iface → Exec (Option String))
    (hcopy : ∀ t l x s, t.Kind p = .Struct →
      NestedRun s (copy (some (.ptr t, .ptr l)) (some (t, x)) s))
    (source dest : Value) (fromType toType : GoType) (st : State)
    (hg : st.jsonTagFrom ≠ st.jsonTagTo) :
    ClosedRun st (bothPasses fuel p copy source dest fromType toType st) := by
  unfold bothPasses
  split
  · rw [bind_liftR]
    split
    · rename_i fs _
      rw [bind_apply]
      have h1 := fieldPass_closed_all fuel p copy hcopy source dest fs st hg
      cases ho : fieldPass fuel p copy source dest fs st with
      | fail f s1 =>
        rw [ho] at h1
        exact h1.closed_congr rfl (by simp [Outcome.isOk])
      | ok r s1 =>
        rw [ho] at h1
        cases r with
        | some err => exact h1.closed_congr rfl (by simp [Outcome.isOk])
        | none =>
          simp only [bind_liftR]
          split
          · rw [bind_apply]
            rename_i tfs _
            rcases methodPass_all fuel p source dest tfs s1 with h | ⟨f, h⟩
            · rw [h]
              exact h1.closed_congr rfl (by simp [Outcome.isOk])
            · rw [h]
              exact h1.closed_congr rfl (by simp [Outcome.isOk])
          · exact h1.closed_congr rfl (by simp [Outcome.isOk])
    · exact ClosedRun.closed_of_fail st _
  · exact ClosedRun.closed_of_ok st none

theorem copyLoop_one_closed_all (fuel : Nat) (p : Program)
    (copy : Iface → Iface → Exec (Option String))
    (hcopy : ∀ t l x s, t.Kind p = .Struct →
      NestedRun s (copy (some (.ptr t, .ptr l)) (some (t, x)) s))
    (from_ to_ : Value) (fromType toType : GoType) (st : State)
    (hg : st.jsonTagFrom ≠ st.jsonTagTo) :
    ClosedRun st (copyLoop fuel p copy false from_ to_ fromType toType 1 0 st) := by
  simp only [copyLoop, copyElem]
  rw [bind_apply, bind_apply]
  rcases sourceAndDest_all fuel p from_ to_ toType 0 st with ⟨sd, h⟩ | ⟨f, h⟩
  · rw [h]
    simp only []
    rw [bind_apply]
    have h1 := bothPasses_closed_all fuel p copy hcopy sd.1 sd.2 fromType toType st hg
    cases ho : bothPasses fuel p copy sd.1 sd.2 fromType toType st with
    | fail f s1 =>
      rw [ho] at h1
      exact h1.closed_congr rfl (by simp [Outcome.isOk])
    | ok r s1 =>
      rw [ho] at h1
      cases r with
      | some err => exact h1.closed_congr rfl (by simp [Outcome.isOk])
      | none => exact h1.closed_congr rfl (by simp [Outcome.isOk])
  · rw [h]
    exact ClosedRun.closed_of_fail st f

/-- C7 (amended): in every call of `Copy`, returning or not, in which the first
fields of the destination type and of the source type carry different tags:
the store is left as it was; the first call of `set` made in the call tree, if
one returns, declines, and every later call of `set` that returns passes the
gate (the log of `set` results is unchanged or grows by `false` followed by
results `true` only); and when the call returns after a call of `set` has
returned, the two package-level tags are equal, so they are no longer the
differing first-field tags of the top-level types. -/
theorem Copy_only_first_set_declines (fuel : Nat) (p : Program) (toValue fromValue : Iface)
    (st : State) (to_ from_ : Value) (tt ft : GoType) (tf ff : StructField)
    (hto : indirect fuel p st.heap (ValueOf toValue) = .ok to_)
    (hfrom : indirect fuel p st.heap (ValueOf fromValue) = .ok from_)
    (htt : to_.Typ p = .ok tt) (hft : from_.Typ p = .ok ft)
    (htf : tt.Field p 0 = .ok tf) (hff : ft.Field p 0 = .ok ff)
    (hne : tf.Tag ≠ ff.Tag) :
    (Copy fuel p toValue fromValue st).state.heap = st.heap ∧
      ((Copy fuel p toValue fromValue st).state.setLog = st.setLog ∨
        ∃ k, (Copy fuel p toValue fromValue st).state.setLog =
          st.setLog ++ false :: List.replicate k true) ∧
      ((Copy fuel p toValue fromValue st).isOk = true →
        (Copy fuel p toValue fromValue st).state.setLog ≠ st.setLog →
        (Copy fuel p toValue fromValue st).state.jsonTagFrom =
          (Copy fuel p toValue fromValue st).state.jsonTagTo) := by
  cases fuel with
  | zero => simp [indirect] at hto
  | succ n =>
    simp only [Copy, bind_readHeap, hfrom, hto]
    split
    · exact ⟨rfl, Or.inl rfl, fun _ h => absurd rfl h⟩
    · have hv : from_.IsValid = true := by
        cases from_ with
        | zero => simp [Value.Typ, throwPanic] at hft
        | mk _ _ _ _ _ => rfl
      simp only [hv, Bool.not_true, Bool.false_eq_true, if_false]
      rcases copyValid_all (n + 1) p (Copy n p) to_ from_ st tt ft htt hft with
        ⟨f, s', h, hh, hl⟩ | ⟨tf', ff', htf', hff', h⟩
      · rw [h]
        exact ⟨hh, Or.inl hl, fun hok => by simp [Outcome.isOk] at hok⟩
      · rw [h]
        rw [htf] at htf'
        rw [hff] at hff'
        cases htf'
        cases hff'
        have hg : ({ st with jsonTagTo := tf.Tag, jsonTagFrom := ff.Tag } : State).jsonTagFrom ≠
            ({ st with jsonTagTo := tf.Tag, jsonTagFrom := ff.Tag } : State).jsonTagTo :=
          fun e => hne e.symm
        rcases copyLoop_one_closed_all (n + 1) p (Copy n p)
            (fun t l x s hk => Copy_nested n p t l x s hk) from_ to_ ft tt _ hg with
          hs | ⟨a1, ⟨k, b1⟩, c1⟩
        · rw [hs]
          exact ⟨rfl, Or.inl rfl, fun _ h => absurd rfl h⟩
        · exact ⟨a1, Or.inr ⟨k, b1⟩, fun hok _ => c1 hok⟩

/-- C7 (witness): `Copy(&d, &s)` on the types of `gateProgram`, whose first
fields carry the tags `d` and `s`: the call returns, its log of `set` results
grows by `false` and one `true`, and it ends with equal tags. -/
theorem Copy_only_first_set_declines_witness :
    ((Copy 5 gateProgram gateTo gateFrom gateState).isOk = true ∧
      (Copy 5 gateProgram gateTo gateFrom gateState).state.setLog =
        gateState.setLog ++ false :: List.replicate 1 true) ∧
    ((Copy 5 gateProgram gateTo gateFrom gateState).state.heap = gateState.heap ∧
      ((Copy 5 gateProgram gateTo gateFrom gateState).state.setLog = gateState.setLog ∨
        ∃ k, (Copy 5 gateProgram gateTo gateFrom gateState).state.setLog =
          gateState.setLog ++ false :: List.replicate k true) ∧
      ((Copy 5 gateProgram gateTo gateFrom gateState).isOk = true →
        (Copy 5 gateProgram gateTo gateFrom gateState).state.setLog ≠ gateState.setLog →
        (Copy 5 gateProgram gateTo gateFrom gateState).state.jsonTagFrom =
          (Copy 5 gateProgram gateTo gateFrom gateState).state.jsonTagTo)) :=
  ⟨⟨rfl, rfl⟩,
    Copy_only_first_set_declines 5 gateProgram gateTo gateFrom gateState
      (.mk (.named 3) (.addr ⟨0, []⟩) false false none)
      (.mk (.named 2) (.addr ⟨1, []⟩) false false none) (.named 3) (.named 2)
      ⟨"A", "d", false, "", .named 1⟩ ⟨"A", "s", false, "", .named 1⟩
      rfl rfl rfl rfl rfl rfl (by decide)⟩

end Copier
